import Mathlib

/-!
Shallow embedding of the mini-sqlite Python engine
(`mini_sqlite_python/core`: parser.py, executor.py, engine.py,
storage/btree.py, storage/lsm_tree.py, storage/pager.py).

Python dictionaries are modelled as insertion-ordered association lists
(assignment to an existing key replaces the value in place, a new key is
appended at the end), Python object references into the row list are
modelled as positions (`Nat` indices) into that list, and places where the
Python code can raise an exception are modelled with `Except PErr`.
Floating point literals and nested container literals are not modelled;
the literal evaluator treats them as unparseable (they fall to the
quote-stripping fallback in `_parse_literal` and to an error in
`_parse_value_list`), which no theorem below depends on.
-/

namespace MiniSql

/-- Python exception kinds that the embedded code can raise. -/
inductive PErr where
  | indexError
  | keyError
  | valueError
deriving DecidableEq, Repr

/-- SQL value domain as produced by the literal evaluator:
null (`None`), signed integer, text, boolean. -/
inductive Value where
  | vNull
  | vInt (n : Int)
  | vStr (s : String)
  | vBool (b : Bool)
deriving DecidableEq, Repr

open Value

/-- Normalisation underlying Python `==`/dict-key equality on this domain:
`True == 1` and `False == 0`, everything else compares structurally. -/
def normV : Value → Value
  | vBool b => vInt (if b then 1 else 0)
  | v => v

/-- Python `==` on stored values (an equivalence relation). -/
def pyEqB (a b : Value) : Bool := decide (normV a = normV b)

/-- Python `str()` on a stored value, as used when rendering result rows. -/
def pyStr : Value → String
  | vNull => "None"
  | vInt n => toString n
  | vStr s => s
  | vBool b => if b then "True" else "False"

/-! ### String-keyed association lists (Python dicts) -/

/-- First-match lookup in an insertion-ordered association list
(Python `d[k]` / `d.get(k)`). -/
def alookup {α : Type} : List (String × α) → String → Option α
  | [], _ => none
  | (k, v) :: rest, key => if key = k then some v else alookup rest key

/-- Python `d[k] = v`: replace the value of the first matching key in
place, or append a fresh key at the end. -/
def aset {α : Type} : List (String × α) → String → α → List (String × α)
  | [], key, v => [(key, v)]
  | (k, w) :: rest, key, v =>
    if key = k then (k, v) :: rest else (k, w) :: aset rest key v

/-- Python `d.pop(k, None)`: drop the first entry of a key, if present. -/
def aerase {α : Type} : List (String × α) → String → List (String × α)
  | [], _ => []
  | (k, w) :: rest, key => if key = k then rest else (k, w) :: aerase rest key

/-! ### Rows -/

/-- A row: Python dict from column name to value. -/
abbrev Row : Type := List (String × Value)

/-- Python `row.get(column)`: `None` when the key is absent. -/
def rowGetD (r : Row) (c : String) : Value := (alookup r c).getD vNull

/-- Python `row[c] = v`. -/
def rowSet (r : Row) (c : String) (v : Value) : Row := aset r c v

/-- Python `row.update(assignments)` (assignments in insertion order). -/
def applyAssigns (r : Row) (asg : List (String × Value)) : Row :=
  asg.foldl (fun acc p => rowSet acc p.1 p.2) r

/-- `{col: val for col, val in zip(columns, values)}`. -/
def mkRow (columns : List String) (values : List Value) : Row :=
  (columns.zip values).foldl (fun acc p => rowSet acc p.1 p.2) ([] : Row)

/-! ### Hash indexes (`BTreeStorage`)

An index is a Python dict from a column's value to the list of rows holding
that value; row references are modelled as positions into the row list. -/

/-- One hash index: value-keyed buckets of row positions, in dict insertion
order, with value equality being Python `==`. -/
abbrev Index : Type := List (Value × List Nat)

/-- `index.setdefault(key, []).append(i)`. -/
def bucketAppend : Index → Value → Nat → Index
  | [], v, i => [(v, [i])]
  | (k, b) :: rest, v, i =>
    if pyEqB k v then (k, b ++ [i]) :: rest else (k, b) :: bucketAppend rest v i

/-- `index.get(value, [])`. -/
def bucketGet : Index → Value → List Nat
  | [], _ => []
  | (k, b) :: rest, v => if pyEqB k v then b else bucketGet rest v

/-- The loop body of `_rebuild_index`, starting at row position `i`. -/
def buildIndexFrom (c : String) : Nat → List Row → Index → Index
  | _, [], acc => acc
  | i, r :: rs, acc => buildIndexFrom c (i + 1) rs (bucketAppend acc (rowGetD r c) i)

/-- `_rebuild_index`: group all current rows by their value in column `c`. -/
def buildIndex (rows : List Row) (c : String) : Index := buildIndexFrom c 0 rows []

/-- One table of `BTreeStorage._tables`: ordered column names, row list,
and the per-column hash indexes. -/
structure Table where
  columns : List String
  rows : List Row
  indexes : List (String × Index)
deriving DecidableEq

/-- A `BTreeStorage`'s `_tables` dict: the per-database table map. -/
abbrev Storage : Type := List (String × Table)

/-- Python row references materialised back into rows
(`bytes` of positions → rows at those positions). -/
def rowsAt (rows : List Row) (ps : List Nat) : List Row := ps.filterMap rows.get?

/-- The row positions produced by `_rows_for`: the whole table when there
is no WHERE, the index bucket when the WHERE column is indexed, and a
linear scan otherwise. -/
def matchedPos (tbl : Table) (w : Option (String × Value)) : List Nat :=
  match w with
  | none => List.range tbl.rows.length
  | some (c, v) =>
    match alookup tbl.indexes c with
    | some idx => bucketGet idx v
    | none => ((List.enumFrom 0 tbl.rows).filter (fun p => pyEqB (rowGetD p.2 c) v)).map Prod.fst

/-- `_rows_for` as a list of rows. -/
def rowsForList (tbl : Table) (w : Option (String × Value)) : List Row :=
  rowsAt tbl.rows (matchedPos tbl w)

/-- Split a character list at the first occurrence of `sep`, if any
(Python `s.split(sep, 1)` yielding two parts). -/
def splitFirstChar (sep : Char) : List Char → Option (List Char × List Char)
  | [] => none
  | c :: cs =>
    if c = sep then some ([], cs)
    else (splitFirstChar sep cs).map (fun p => (c :: p.1, p.2))

/-- `col.split(".", 1)[-1]`: the part after the first dot, if any. -/
def unqualSuffix (c : String) : String :=
  match splitFirstChar '.' c.toList with
  | none => c
  | some (_, post) => String.mk post

/-- The non-join projection of `select_rows`: every requested column name is
given a key, resolved by its unqualified suffix, `None` when missing. -/
def projectRow (cols : List String) (r : Row) : Row :=
  cols.foldl (fun pr c => rowSet pr c (rowGetD r (unqualSuffix c))) ([] : Row)

/-- The non-join part of `select_rows` on one table. -/
def selectT (tbl : Table) (cols : List String) (w : Option (String × Value)) : List Row :=
  let rows := rowsForList tbl w
  if cols = ["*"] then rows else rows.map (projectRow cols)

/-! ### Join (`_join_rows`) -/

/-- The single INNER JOIN descriptor produced by the SELECT parser. -/
structure JoinSpec where
  table : String
  lt : String
  lc : String
  rt : String
  rc : String
deriving DecidableEq

/-- The `table.column`-namespaced combined row of a join pair. -/
def combineRow (ltName : String) (lcols : List String) (rtName : String)
    (rcols : List String) (l r : Row) : Row :=
  let lm := lcols.foldl (fun m c => rowSet m (ltName ++ "." ++ c) (rowGetD l c)) ([] : Row)
  rcols.foldl (fun m c => rowSet m (rtName ++ "." ++ c) (rowGetD r c)) lm

/-- Per-requested-column projection of a combined join row: qualified names
resolve in the combined row, unqualified names in whichever side owns the
column, otherwise null. -/
def joinProjVal (lcols rcols : List String) (combined l r : Row) (c : String) : Value :=
  if c.toList.contains '.' then rowGetD combined c
  else if c ∈ lcols then rowGetD l c
  else if c ∈ rcols then rowGetD r c
  else vNull

/-- One emitted join row for a matching (left, right) pair. -/
def joinEmit (j : JoinSpec) (lcols rcols : List String) (cols : List String)
    (l r : Row) : Row :=
  let combined := combineRow j.lt lcols j.rt rcols l r
  if cols = ["*"] then combined
  else cols.foldl (fun pr c => rowSet pr c (joinProjVal lcols rcols combined l r c)) ([] : Row)

/-- `_join_rows`: materialise the left side through `_rows_for`, ensure a
hash index on the right join column (building one on the fly if missing),
and emit one combined row per (left row, matching right row) pair. -/
def joinRowsT (s : Storage) (t : String) (cols : List String)
    (w : Option (String × Value)) (j : JoinSpec) : Except PErr (List Row) :=
  match alookup s t with
  | none => .error .keyError
  | some tbl =>
    let leftRows := rowsForList tbl w
    match alookup s j.table with
    | none => .error .keyError
    | some rtbl =>
      let rIdx :=
        match alookup rtbl.indexes j.rc with
        | some idx => idx
        | none => buildIndex rtbl.rows j.rc
      .ok (leftRows.flatMap (fun l =>
        (rowsAt rtbl.rows (bucketGet rIdx (rowGetD l j.lc))).map
          (fun r => joinEmit j tbl.columns rtbl.columns cols l r)))

/-! ### Table-manager operations (`BTreeStorage`)

Each mutating call persists through the Pager in Python; persistence does
not change the in-memory state and is modelled separately (`persistSnap`).
Python raises `KeyError` before any mutation when the table is missing, so
errors leave the state unchanged. -/

/-- `create_table`: replaces any prior definition. -/
def create_table (s : Storage) (name : String) (columns : List String) : Storage :=
  aset s name ⟨columns, [], []⟩

/-- `drop_table`: `pop(name, None)`. -/
def drop_table (s : Storage) (name : String) : Storage := aerase s name

/-- `table_exists`. -/
def table_exists (s : Storage) (name : String) : Bool := (alookup s name).isSome

/-- `add_column`: append the column, null it on every existing row, rebuild
every existing index; no-op when the column is already declared. -/
def add_column (s : Storage) (name : String) (column : String) :
    Except PErr Storage :=
  match alookup s name with
  | none => .error .keyError
  | some tbl =>
    if column ∈ tbl.columns then .ok s
    else
      let newRows := tbl.rows.map (fun r => rowSet r column vNull)
      let newIdx := tbl.indexes.map (fun p => (p.1, buildIndex newRows p.1))
      .ok (aset s name ⟨tbl.columns ++ [column], newRows, newIdx⟩)

/-- `create_index`: build the hash index by scanning current rows; no-op
when the index already exists. -/
def create_index (s : Storage) (name : String) (column : String) :
    Except PErr Storage :=
  match alookup s name with
  | none => .error .keyError
  | some tbl =>
    if (alookup tbl.indexes column).isSome then .ok s
    else .ok (aset s name
      { tbl with indexes := aset tbl.indexes column (buildIndex tbl.rows column) })

/-- `drop_index`: remove the index entry without touching rows. -/
def drop_index (s : Storage) (name : String) (column : String) : Storage :=
  match alookup s name with
  | none => s
  | some tbl => aset s name { tbl with indexes := aerase tbl.indexes column }

/-- `insert_row`: zip positional values against the column order, append
the row, append its position into every existing index, return the row. -/
def insert_row (s : Storage) (name : String) (values : List Value) :
    Except PErr (Storage × Row) :=
  match alookup s name with
  | none => .error .keyError
  | some tbl =>
    let row := mkRow tbl.columns values
    let newIdx := tbl.indexes.map
      (fun p => (p.1, bucketAppend p.2 (rowGetD row p.1) tbl.rows.length))
    .ok (aset s name ⟨tbl.columns, tbl.rows ++ [row], newIdx⟩, row)

/-- In-place mutation of the rows at the matched positions
(`for row in rows: row.update(assignments)` through row references). -/
def updAt (ps : List Nat) (asg : List (String × Value)) : Nat → List Row → List Row
  | _, [] => []
  | i, r :: rs => (if i ∈ ps then applyAssigns r asg else r) :: updAt ps asg (i + 1) rs

/-- `update_rows`: apply the assignments to every matched row, rebuild only
the indexes whose column is assigned, return the match count. -/
def update_rows (s : Storage) (name : String) (asg : List (String × Value))
    (w : Option (String × Value)) : Except PErr (Storage × Nat) :=
  match alookup s name with
  | none => .error .keyError
  | some tbl =>
    let ps := matchedPos tbl w
    let newRows := updAt ps asg 0 tbl.rows
    let newIdx := tbl.indexes.map (fun p =>
      if p.1 ∈ asg.map Prod.fst then (p.1, buildIndex newRows p.1) else p)
    .ok (aset s name ⟨tbl.columns, newRows, newIdx⟩, ps.length)

/-- `delete_rows`: no WHERE deletes all rows, otherwise keep the rows whose
column differs from the value; rebuild every index afterwards. -/
def delete_rows (s : Storage) (name : String) (w : Option (String × Value)) :
    Except PErr (Storage × Nat) :=
  match alookup s name with
  | none => .error .keyError
  | some tbl =>
    let kept :=
      match w with
      | none => []
      | some (c, v) => tbl.rows.filter (fun r => ¬ pyEqB (rowGetD r c) v)
    let deleted := tbl.rows.length - kept.length
    let newIdx := tbl.indexes.map (fun p => (p.1, buildIndex kept p.1))
    .ok (aset s name ⟨tbl.columns, kept, newIdx⟩, deleted)

/-- `select_rows`: dispatch between the join algorithm and the filtered,
projected single-table path. -/
def select_rows (s : Storage) (t : String) (cols : List String)
    (w : Option (String × Value)) (j : Option JoinSpec) : Except PErr (List Row) :=
  match j with
  | some js => joinRowsT s t cols w js
  | none =>
    match alookup s t with
    | none => .error .keyError
    | some tbl => .ok (selectT tbl cols w)

/-- One `describe()` entry: column order, row count, sorted index columns. -/
structure DescribeEntry where
  columns : List String
  row_count : Nat
  indexes : List String
deriving DecidableEq

/-- Python `sorted` on strings. -/
def sortStr (l : List String) : List String := l.insertionSort (· ≤ ·)

/-- `describe()`. -/
def describeS (s : Storage) : List (String × DescribeEntry) :=
  s.map (fun p => (p.1, ⟨p.2.columns, p.2.rows.length, sortStr (p.2.indexes.map Prod.fst)⟩))

/-! ### Persistence snapshot (`_persist` / `_load`)

`_persist` serialises, per table, the column order, the row dicts and the
sorted index column names (never the index contents) as compact JSON and
hands the bytes to the Pager; `_load` decodes them and rebuilds each index
from the row data.  The JSON encode/decode pair is the identity on this
snapshot structure, so it is modelled at the structure level; the byte
round trip through the Pager is proved separately. -/

/-- The serialised shape of one table. -/
structure SnapTable where
  columns : List String
  rows : List Row
  indexes : List String
deriving DecidableEq

/-- `_persist`: the snapshot taken of a whole `Storage`. -/
def persistSnap (s : Storage) : List (String × SnapTable) :=
  s.map (fun p => (p.1, ⟨p.2.columns, p.2.rows, sortStr (p.2.indexes.map Prod.fst)⟩))

/-- `_load` of one table: rows verbatim, every named index rebuilt from
the row data (`self._rebuild_index(name, column)` per serialised name). -/
def loadTable (st : SnapTable) : Table :=
  ⟨st.columns, st.rows,
    st.indexes.foldl (fun idxs c => aset idxs c (buildIndex st.rows c)) []⟩

/-- `_load` of a whole snapshot into a fresh `BTreeStorage`. -/
def loadSnap (snap : List (String × SnapTable)) : Storage :=
  snap.map (fun p => (p.1, loadTable p.2))

/-! ### Pager (`pager.py`)

Bytes are modelled as natural numbers; only the in-memory page set and
recorded length matter for the blob round trip (`_flush` mirrors them to
disk without changing them). -/

/-- In-memory pager state: page size, page list, recorded payload length. -/
structure PagerState where
  page_size : Nat
  pages : List (List Nat)
  length : Nat
deriving DecidableEq

/-- `buffer[i : i + page_size]` slicing loop of `write_blob`. -/
def chunkPages (ps : Nat) (l : List Nat) : List (List Nat) :=
  if _h : ps = 0 ∨ l = [] then []
  else l.take ps :: chunkPages ps (l.drop ps)
termination_by l.length
decreasing_by
  simp only [not_or] at _h
  have hl : 0 < l.length := List.length_pos.mpr _h.2
  have hp : 0 < ps := Nat.pos_of_ne_zero _h.1
  simp [List.length_drop]
  omega

/-- `write_blob`: record the byte length, zero-pad to a whole number of
pages, replace the page set (empty payload clears the pages). -/
def write_blob (st : PagerState) (data : List Nat) : PagerState :=
  if data = [] then { st with pages := [], length := 0 }
  else
    let needed := (data.length + st.page_size - 1) / st.page_size
    let buffer := data ++ List.replicate (needed * st.page_size - data.length) 0
    { st with pages := chunkPages st.page_size buffer, length := data.length }

/-- `read_blob`: concatenate all pages, truncate to the recorded length;
empty bytes when there are no pages or the length is zero. -/
def read_blob (st : PagerState) : List Nat :=
  if st.pages = [] ∨ st.length = 0 then []
  else (st.pages.flatten).take st.length

/-! ### Commit log (`lsm_tree.py`) -/

/-- One commit-log record as appended by the executor. -/
inductive LogEntry where
  | insertE (db : String) (row : Row)
  | updateE (db : String) (count : Nat)
  | deleteE (db : String) (count : Nat)
deriving DecidableEq

/-- `LSMTreeStorage.log`. -/
def lsmLog (segments : List LogEntry) (e : LogEntry) : List LogEntry := segments ++ [e]

/-- `LSMTreeStorage.compact`: retain only the last 10 entries. -/
def lsmCompact (segments : List LogEntry) : List LogEntry :=
  segments.drop (segments.length - 10)

/-- `LSMTreeStorage.commit`: return all pending entries in append order,
clear the buffer, then compact (a no-op on the now-empty buffer).
The first component is the flushed list, the second the remaining state. -/
def lsmCommit (segments : List LogEntry) : List LogEntry × List LogEntry :=
  (segments, lsmCompact [])

/-! ### Python string primitives used by the parser -/

/-- Python `str` whitespace (` \t\n\r\x0b\x0c`). -/
def pySpaceChar (c : Char) : Bool :=
  c = ' ' || c = '\t' || c = '\n' || c = '\r' || c = Char.ofNat 11 || c = Char.ofNat 12

/-- `s.strip()`. -/
def pyStrip (s : String) : String :=
  String.mk (((s.toList.dropWhile pySpaceChar).reverse.dropWhile pySpaceChar).reverse)

/-- `s.rstrip(";")`. -/
def pyRstripSemis (s : String) : String :=
  String.mk ((s.toList.reverse.dropWhile (· = ';')).reverse)

/-- `s.upper()` (ASCII). -/
def pyUpper (s : String) : String := String.mk (s.toList.map Char.toUpper)

/-- `s.lower()` (ASCII). -/
def pyLower (s : String) : String := String.mk (s.toList.map Char.toLower)

/-- `s.strip("'")`. -/
def pyStripQuotes (s : String) : String :=
  String.mk (((s.toList.dropWhile (· = '\'')).reverse.dropWhile (· = '\'')).reverse)

/-- Worker for `s.split()` (whitespace runs, no empty tokens). -/
def wordsCore : List Char → List Char → List String
  | acc, [] => if acc = [] then [] else [String.mk acc.reverse]
  | acc, c :: cs =>
    if pySpaceChar c then
      if acc = [] then wordsCore [] cs else String.mk acc.reverse :: wordsCore [] cs
    else wordsCore (c :: acc) cs

/-- `s.split()`. -/
def pyWords (s : String) : List String := wordsCore [] s.toList

/-- Worker for `s.split(sep)` (single-character separator, keeps empties). -/
def splitCore (sep : Char) : List Char → List Char → List String
  | acc, [] => [String.mk acc.reverse]
  | acc, c :: cs =>
    if c = sep then String.mk acc.reverse :: splitCore sep [] cs
    else splitCore sep (c :: acc) cs

/-- `s.split(sep)` for a one-character separator. -/
def splitChar (s : String) (sep : Char) : List String := splitCore sep [] s.toList

/-- Substring containment (`pat in hay`). -/
def containsSub (pat : List Char) : List Char → Bool
  | [] => pat.isPrefixOf []
  | c :: cs => pat.isPrefixOf (c :: cs) || containsSub pat cs

/-- Split at the first occurrence of a (case-sensitive) substring, as in
`s.split(pat, 1)` when the pattern occurs. -/
def splitSubAux (pat : List Char) : List Char → List Char → Option (List Char × List Char)
  | preRev, l =>
    if pat.isPrefixOf l then some (preRev.reverse, l.drop pat.length)
    else
      match l with
      | [] => none
      | c :: cs => splitSubAux pat (c :: preRev) cs

/-- Python regex `\w` (ASCII word character). -/
def wordChar (c : Char) : Bool := c.isAlphanum || c = '_'

/-- Case-insensitive literal keyword match returning the rest. -/
def ciPrefix : List Char → List Char → Option (List Char)
  | [], l => some l
  | _ :: _, [] => none
  | k :: ks, c :: cs => if k.toLower = c.toLower then ciPrefix ks cs else none

/-- `\s+` (greedy, at least one). -/
def wsPlus : List Char → Option (List Char)
  | [] => none
  | c :: cs => if pySpaceChar c then some (cs.dropWhile pySpaceChar) else none

/-- `\s*` (greedy). -/
def wsStar (l : List Char) : List Char := l.dropWhile pySpaceChar

/-- `\w+` (greedy, at least one) returning the word and the rest. -/
def wordPlus (l : List Char) : Option (String × List Char) :=
  let w := l.takeWhile wordChar
  if w = [] then none else some (String.mk w, l.drop w.length)

/-- `re.search(r"\bWHERE\b", text, IGNORECASE)` worker: leftmost match of
the keyword with non-word characters (or string ends) on both sides,
returning the text before and after the match. -/
def findKwAux (kw : List Char) : List Char → List Char → Option (List Char × List Char)
  | preRev, l =>
    (match ciPrefix kw l with
     | some rest =>
       let okL := match preRev with | [] => true | c :: _ => ¬ wordChar c
       let okR := match rest with | [] => true | c :: _ => ¬ wordChar c
       if okL && okR then some (preRev.reverse, rest) else none
     | none => none)
    |>.orElse (fun _ =>
      match l with
      | [] => none
      | c :: cs => findKwAux kw (c :: preRev) cs)

/-- `_split_keyword(text, "WHERE")` when the keyword occurs: both sides
are stripped. -/
def splitKeywordWhere (text : String) : Option (String × String) :=
  (findKwAux "WHERE".toList [] text.toList).map
    (fun p => (pyStrip (String.mk p.1), pyStrip (String.mk p.2)))

/-! ### Literal evaluation (`ast.literal_eval` fragment)

Integers, quoted strings without escapes, `True`/`False`/`None`.  Floats,
underscored numbers and nested containers are not modelled: they are
treated as unparseable (no theorem below touches such literals). -/

/-- Digits to a natural number. -/
def natOfDigits (ds : List Char) : Nat :=
  ds.foldl (fun n c => n * 10 + (c.toNat - 48)) 0

/-- Scan one literal after optional leading whitespace, returning the value
and the unconsumed rest. -/
def scanLit (l0 : List Char) : Option (Value × List Char) :=
  let l := l0.dropWhile pySpaceChar
  match l with
  | [] => none
  | c :: cs =>
    if c = '\'' || c = '"' then
      let body := cs.takeWhile (fun d => d ≠ c && d ≠ '\\')
      match cs.drop body.length with
      | d :: rest2 => if d = c then some (vStr (String.mk body), rest2) else none
      | [] => none
    else if c = '-' || c = '+' then
      let digits := cs.takeWhile Char.isDigit
      if digits = [] then none
      else
        let n : Int := Int.ofNat (natOfDigits digits)
        some (vInt (if c = '-' then -n else n), cs.drop digits.length)
    else if c.isDigit then
      let digits := (c :: cs).takeWhile Char.isDigit
      some (vInt (Int.ofNat (natOfDigits digits)), (c :: cs).drop digits.length)
    else
      let w := (c :: cs).takeWhile wordChar
      let rest := (c :: cs).drop w.length
      if w = "True".toList then some (vBool true, rest)
      else if w = "False".toList then some (vBool false, rest)
      else if w = "None".toList then some (vNull, rest)
      else none

/-- `ast.literal_eval(text)` on a single literal: the whole string (up to
surrounding whitespace) must be consumed. -/
def litEval (t : String) : Option Value :=
  match scanLit t.toList with
  | some (v, rest) => if rest.dropWhile pySpaceChar = [] then some v else none
  | none => none

/-- `_parse_literal`: literal evaluation with the quote-stripping fallback
(the fallback never fails). -/
def parseLiteral (t : String) : Value := (litEval t).getD (vStr (pyStripQuotes t))

/-- Comma-separated tail of a tuple literal (fuel-indexed loop; each step
consumes at least the comma, so the fuel below never runs out). -/
def tupleRest (fuel : Nat) (l0 : List Char) (acc : List Value) : Option (List Value) :=
  match fuel with
  | 0 => none
  | fuel + 1 =>
    let l := l0.dropWhile pySpaceChar
    match l with
    | [] => some acc.reverse
    | ',' :: rest =>
      let rest2 := rest.dropWhile pySpaceChar
      if rest2 = [] then some acc.reverse
      else
        match scanLit rest2 with
        | some (v, rest3) => tupleRest fuel rest3 (v :: acc)
        | none => none
    | _ => none

/-- `_parse_value_list`: `ast.literal_eval("(" + segment + ")")` with a
non-tuple result wrapped into a one-element list; failures raise. -/
def pyEvalTupleList (seg : String) : Except PErr (List Value) :=
  let l := seg.toList.dropWhile pySpaceChar
  if l = [] then .ok []
  else
    match scanLit l with
    | none => .error .valueError
    | some (v, rest) =>
      match tupleRest (rest.length + 1) rest [v] with
      | some vs => .ok vs
      | none => .error .valueError

/-! ### Regex matchers (`_SELECT_RE` and the INSERT pattern)

Modelled as explicit scanners following the engine's backtracking order:
the lazy `cols` group grows left to right, keyword gaps are maximal-munch
whitespace, `\w+` groups are maximal munch, and the optional join/where
groups are tried present-first.  The `$`-before-trailing-newline nuance
and backtracking inside `\w+` groups are not modelled; no theorem depends
on inputs where they would matter. -/

/-- `INSERT\s+INTO\s+(\w+)\s+VALUES\s*\((.+)\)$` (case-insensitive
keywords): table name and the raw value-list segment. -/
def insertMatch (text : String) : Option (String × String) := do
  let l0 ← ciPrefix "INSERT".toList text.toList
  let l1 ← wsPlus l0
  let l2 ← ciPrefix "INTO".toList l1
  let l3 ← wsPlus l2
  let (tname, l4) ← wordPlus l3
  let l5 ← wsPlus l4
  let l6 ← ciPrefix "VALUES".toList l5
  match wsStar l6 with
  | '(' :: rest =>
    match rest.reverse with
    | ')' :: midRev =>
      let mid := midRev.reverse
      if mid = [] || mid.contains '\n' then none else some (tname, String.mk mid)
    | _ => none
  | _ => none

/-- Raw (not yet lower-cased) capture groups of `_SELECT_RE`. -/
structure SelRaw where
  cols : String
  table : String
  joinG : Option JoinSpec
  whereG : Option (String × String)

/-- `\s+WHERE\s+(\w+)\s*=\s*(.+)$`. -/
def whereTail (l : List Char) : Option (String × String) := do
  let l1 ← wsPlus l
  let l2 ← ciPrefix "WHERE".toList l1
  let l3 ← wsPlus l2
  let (wc, l4) ← wordPlus l3
  match wsStar l4 with
  | '=' :: l6 =>
    let l7 := wsStar l6
    if l7 ≠ [] then
      if l7.contains '\n' then none else some (wc, String.mk l7)
    else
      match l6.getLast? with
      | some c => if c = '\n' then none else some (wc, String.mk [c])
      | none => none
  | _ => none

/-- `(\w+)\.(\w+)`. -/
def dotPair (l : List Char) : Option (String × String × List Char) := do
  let (a, l1) ← wordPlus l
  match l1 with
  | '.' :: l2 => do
    let (b, l3) ← wordPlus l2
    some (a, b, l3)
  | _ => none

/-- `\s+INNER\s+JOIN\s+(\w+)\s+ON\s+(\w+)\.(\w+)\s*=\s*(\w+)\.(\w+)`. -/
def joinTail (l : List Char) : Option (JoinSpec × List Char) := do
  let l1 ← wsPlus l
  let l2 ← ciPrefix "INNER".toList l1
  let l3 ← wsPlus l2
  let l4 ← ciPrefix "JOIN".toList l3
  let l5 ← wsPlus l4
  let (jt, l6) ← wordPlus l5
  let l7 ← wsPlus l6
  let l8 ← ciPrefix "ON".toList l7
  let l9 ← wsPlus l8
  let (lt, lc, l10) ← dotPair l9
  match wsStar l10 with
  | '=' :: l12 => do
    let (rt, rc, l13) ← dotPair (wsStar l12)
    some (⟨jt, lt, lc, rt, rc⟩, l13)
  | _ => none

/-- The optional WHERE group followed by the end anchor. -/
def whereOrEnd (l : List Char) : Option (Option (String × String)) :=
  match whereTail l with
  | some w => some (some w)
  | none => if l = [] then some none else none

/-- The optional join group followed by the optional WHERE group and the
end anchor, tried in the regex engine's order. -/
def afterTable (l : List Char) : Option (Option JoinSpec × Option (String × String)) :=
  match joinTail l with
  | some (j, l2) =>
    match whereOrEnd l2 with
    | some w => some (some j, w)
    | none =>
      match whereOrEnd l with
      | some w => some (none, w)
      | none => none
  | none => (whereOrEnd l).map (fun w => ((none : Option JoinSpec), w))

/-- Try `\s+FROM\s+(\w+)` and the rest of the pattern at one endpoint of
the lazy `cols` group. -/
def tryFrom (colsRev : List Char) (l : List Char) : Option SelRaw := do
  let l1 ← wsPlus l
  let l2 ← ciPrefix "FROM".toList l1
  let l3 ← wsPlus l2
  let (tname, l4) ← wordPlus l3
  let (j, w) ← afterTable l4
  some ⟨String.mk colsRev.reverse, tname, j, w⟩

/-- Grow the lazy `cols` group one character at a time (`.` does not cross
a newline). -/
def selLoop : List Char → List Char → Option SelRaw
  | _, [] => none
  | colsRev, c :: cs =>
    if c = '\n' then none
    else
      match tryFrom (c :: colsRev) cs with
      | some r => some r
      | none => selLoop (c :: colsRev) cs

/-- `_SELECT_RE.match(text)`. -/
def selectMatch (text : String) : Option SelRaw := do
  let l0 ← ciPrefix "SELECT".toList text.toList
  let l1 ← wsPlus l0
  selLoop [] l1

/-! ### Parsed commands (`ParsedCommand` and the details dicts) -/

/-- The payload shapes that occur as values of a details dict. -/
inductive DVal where
  | s (v : String)
  | colsD (cs : List (String × String))
  | colD (name ty : String)
  | valsD (vs : List Value)
  | strsD (ss : List String)
  | whereD (w : Option (String × Value))
  | joinD (j : Option JoinSpec)
  | assignsD (ps : List (String × Value))
deriving DecidableEq

/-- A details dict. -/
abbrev Details : Type := List (String × DVal)

/-- `ParsedCommand`. -/
structure ParsedCommand where
  command : String
  raw : String
  tokens : List String
  details : Details
deriving DecidableEq

/-- `details.get(k)` expecting a string. -/
def detGetStr (d : Details) (k : String) : Option String :=
  match alookup d k with
  | some (.s v) => some v
  | _ => none

/-- `details.get(k)` expecting CREATE TABLE column definitions. -/
def detGetCols (d : Details) (k : String) : Option (List (String × String)) :=
  match alookup d k with
  | some (.colsD cs) => some cs
  | _ => none

/-- `details.get(k)` expecting an ALTER TABLE column description. -/
def detGetColDef (d : Details) (k : String) : Option (String × String) :=
  match alookup d k with
  | some (.colD n t) => some (n, t)
  | _ => none

/-- `details.get(k)` expecting an INSERT value list. -/
def detGetVals (d : Details) (k : String) : Option (List Value) :=
  match alookup d k with
  | some (.valsD vs) => some vs
  | _ => none

/-- `details.get(k)` expecting the SELECT column-name list. -/
def detGetStrs (d : Details) (k : String) : Option (List String) :=
  match alookup d k with
  | some (.strsD ss) => some ss
  | _ => none

/-- `details.get(k)` expecting a WHERE condition (or None). -/
def detGetWhere (d : Details) (k : String) : Option (String × Value) :=
  match alookup d k with
  | some (.whereD w) => w
  | _ => none

/-- `details.get(k)` expecting a join descriptor (or None). -/
def detGetJoin (d : Details) (k : String) : Option JoinSpec :=
  match alookup d k with
  | some (.joinD j) => j
  | _ => none

/-- `details.get(k)` expecting a SET assignment dict. -/
def detGetAssigns (d : Details) (k : String) : Option (List (String × Value)) :=
  match alookup d k with
  | some (.assignsD ps) => some ps
  | _ => none

/-! ### The sub-parsers of `SQLParser` -/

/-- `_parse_create_table`. -/
def parseCreateTable (text : String) : Except PErr Details :=
  match splitFirstChar '(' text.toList with
  | none => .error .valueError
  | some (header, colsPart) =>
    match (pyWords (String.mk header)).get? 2 with
    | none => .error .indexError
    | some tt =>
      let inner : List Char :=
        match splitFirstChar ')' colsPart.reverse with
        | none => colsPart
        | some (_, pre) => pre.reverse
      let defs := (splitCore ',' [] inner).filterMap (fun chunk =>
        match pyWords chunk with
        | [] => none
        | p0 :: ps =>
          some (pyLower p0, match ps with | [] => "TEXT" | p1 :: _ => pyUpper p1))
      .ok [("table", .s (pyLower tt)), ("columns", .colsD defs)]

/-- `_parse_alter_table`. -/
def parseAlterTable (text : String) : Except PErr Details :=
  let tokens := pyWords text
  match tokens.get? 2 with
  | none => .error .indexError
  | some tt =>
    if tokens.length ≥ 7 &&
        pyUpper (tokens.getD 3 "") = "ADD" && pyUpper (tokens.getD 4 "") = "COLUMN" then
      .ok [("action", .s "ADD_COLUMN"), ("table", .s (pyLower tt)),
           ("column", .colD (pyLower (tokens.getD 5 "")) (pyUpper (tokens.getD 6 "")))]
    else .ok []

/-- `_parse_insert`. -/
def parseInsert (text : String) : Except PErr Details :=
  match insertMatch text with
  | none => .ok []
  | some (tname, seg) =>
    match pyEvalTupleList seg with
    | .error e => .error e
    | .ok vs => .ok [("table", .s (pyLower tname)), ("values", .valsD vs)]

/-- `_parse_condition` on a non-empty clause. -/
def parseCondition (clause : String) : Except PErr (String × Value) :=
  match splitFirstChar '=' clause.toList with
  | none => .error .valueError
  | some (c, v) =>
    .ok (pyLower (pyStrip (String.mk c)), parseLiteral (pyStrip (String.mk v)))

/-- The shared WHERE-splitting prelude of `_parse_update`/`_parse_delete`. -/
def splitWherePart (text : String) : Except PErr (String × Option String) :=
  if containsSub " WHERE ".toList (pyUpper text).toList then
    match splitKeywordWhere text with
    | some (a, b) => .ok (a, some b)
    | none => .error .valueError
  else .ok (text, none)

/-- The optional WHERE condition (an empty clause is falsy). -/
def parseWhereOpt (wherePart : Option String) : Except PErr (Option (String × Value)) :=
  match wherePart with
  | some wp => if wp ≠ "" then (parseCondition wp).map some else .ok none
  | none => .ok none

/-- `_parse_update`. -/
def parseUpdate (text : String) : Except PErr Details := do
  let (prefixPart, wherePart) ← splitWherePart text
  match (pyWords prefixPart).get? 1 with
  | none => Except.error .indexError
  | some tt =>
    match splitSubAux " SET ".toList [] prefixPart.toList with
    | none => Except.error .indexError
    | some (_, setClause) => do
      let asg ← (splitCore ',' [] setClause).foldlM
        (fun (acc : List (String × Value)) chunk =>
          match splitFirstChar '=' chunk.toList with
          | none => Except.error PErr.valueError
          | some (c, v) => Except.ok (aset acc (pyLower (pyStrip (String.mk c)))
              (parseLiteral (pyStrip (String.mk v)))))
        []
      let w ← parseWhereOpt wherePart
      Except.ok [("table", .s (pyLower tt)), ("assignments", .assignsD asg),
                 ("where", .whereD w)]

/-- `_parse_delete`. -/
def parseDelete (text : String) : Except PErr Details := do
  let (prefixPart, wherePart) ← splitWherePart text
  match (pyWords prefixPart).get? 2 with
  | none => Except.error .indexError
  | some tt => do
    let w ← parseWhereOpt wherePart
    Except.ok [("table", .s (pyLower tt)), ("where", .whereD w)]

/-- `_parse_select`. -/
def parseSelect (text : String) : Except PErr Details :=
  match selectMatch text with
  | none => .ok []
  | some m =>
    let cols := (splitChar m.cols ',').map pyStrip
    let w := m.whereG.map (fun p => (pyLower p.1, parseLiteral p.2))
    let j := m.joinG.map (fun js =>
      (⟨pyLower js.table, pyLower js.lt, pyLower js.lc, pyLower js.rt, pyLower js.rc⟩ :
        JoinSpec))
    .ok [("table", .s (pyLower m.table)), ("columns", .strsD cols),
         ("where", .whereD w), ("join", .joinD j)]

/-- `tokens[i]`. -/
def needTok (toks : List String) (i : Nat) : Except PErr String :=
  match toks.get? i with
  | some t => .ok t
  | none => .error .indexError

/-- `SQLParser.parse`: keyword dispatch over the tokenised text.  Places
where the Python code raises become `.error`. -/
def parse (q : String) : Except PErr ParsedCommand :=
  let raw := pyStrip q
  if raw = "" then .ok ⟨"EMPTY", "", [], []⟩
  else
    let text := pyRstripSemis raw
    let toks := pyWords text
    match toks with
    | [] => .error .indexError
    | t0 :: rest =>
      let cmd := pyUpper t0
      if cmd = "COMMIT" then .ok ⟨"COMMIT", raw, toks, []⟩
      else if cmd = "USE" then
        match rest with
        | n :: _ => .ok ⟨"USE_DATABASE", raw, toks, [("name", .s (pyLower n))]⟩
        | [] => .ok ⟨"UNKNOWN", raw, toks, []⟩
      else if cmd = "INSERT" then (parseInsert text).map (fun d => ⟨"INSERT", raw, toks, d⟩)
      else if cmd = "UPDATE" then (parseUpdate text).map (fun d => ⟨"UPDATE", raw, toks, d⟩)
      else if cmd = "DELETE" then (parseDelete text).map (fun d => ⟨"DELETE", raw, toks, d⟩)
      else if cmd = "SELECT" then (parseSelect text).map (fun d => ⟨"SELECT", raw, toks, d⟩)
      else
        match rest with
        | [] => .ok ⟨"UNKNOWN", raw, toks, []⟩
        | t1 :: _ =>
          let k2 := pyUpper t1
          if cmd = "CREATE" then
            if k2 = "DATABASE" then
              (needTok toks 2).map (fun n =>
                ⟨"CREATE_DATABASE", raw, toks, [("name", .s (pyLower n))]⟩)
            else if k2 = "TABLE" then
              (parseCreateTable text).map (fun d => ⟨"CREATE_TABLE", raw, toks, d⟩)
            else if k2 = "INDEX" then do
              let t2 ← needTok toks 2
              let t3 ← needTok toks 3
              Except.ok ⟨"CREATE_INDEX", raw, toks,
                [("table", .s (pyLower t2)), ("column", .s (pyLower t3))]⟩
            else .ok ⟨"UNKNOWN", raw, toks, []⟩
          else if cmd = "ALTER" then
            if k2 = "DATABASE" then
              (needTok toks 2).map (fun n =>
                ⟨"ALTER_DATABASE", raw, toks, [("name", .s (pyLower n))]⟩)
            else if k2 = "TABLE" then
              (parseAlterTable text).map (fun d => ⟨"ALTER_TABLE", raw, toks, d⟩)
            else .ok ⟨"UNKNOWN", raw, toks, []⟩
          else if cmd = "DROP" then
            if k2 = "TABLE" then
              (needTok toks 2).map (fun t =>
                ⟨"DROP_TABLE", raw, toks, [("table", .s (pyLower t))]⟩)
            else if k2 = "INDEX" then do
              let t2 ← needTok toks 2
              let t3 ← needTok toks 3
              Except.ok ⟨"DROP_INDEX", raw, toks,
                [("table", .s (pyLower t2)), ("column", .s (pyLower t3))]⟩
            else .ok ⟨"UNKNOWN", raw, toks, []⟩
          else .ok ⟨"UNKNOWN", raw, toks, []⟩

/-! ### Executor (`executor.py`) -/

/-- `SQLExecutor` state: the database map, the active-database pointer and
the commit log. -/
structure ExecState where
  databases : List (String × Storage)
  active : String
  lsm : List LogEntry
deriving DecidableEq

/-- The startup state when no `.dat` files exist: one empty database named
`default`, which is also active. -/
def freshExec : ExecState := ⟨[("default", [])], "default", []⟩

/-- `_ensure_database`: create an empty database lazily (a database absent
from the map has no backing file, so its storage starts empty). -/
def ensureDB (s : ExecState) (name : String) : ExecState :=
  if (alookup s.databases name).isSome then s
  else { s with databases := s.databases ++ [(name, [])] }

/-- Write back the (in-place mutated) active database's storage. -/
def setActiveStorage (s : ExecState) (stg : Storage) : ExecState :=
  { s with databases := aset s.databases s.active stg }

/-- `" | "`-joined cells; a key absent from the row renders as `str("") = ""`,
a present null as `str(None) = "None"`. -/
def cellStr (r : Row) (c : String) : String :=
  match alookup r c with
  | none => ""
  | some v => pyStr v

/-- `_format_rows`. -/
def formatRows (rows : List Row) (requested : List String) : List String :=
  if rows = [] then ["(no rows)"]
  else
    let headers := if requested ≠ ["*"] then requested
      else (rows.headD []).map Prod.fst
    (String.intercalate " | " headers) ::
      rows.map (fun r => String.intercalate " | " (headers.map (cellStr r)))

/-- `Committed {n} entr{y|ies}.`. -/
def commitMsg (n : Nat) : String :=
  "Committed " ++ toString n ++ " entr" ++ (if n = 1 then "y" else "ies") ++ "."

/-- The tail of the executor dispatch: the commands that implicitly target
the active database, after the table-not-found guard has passed.
Branches that would read a missing details key (or use a `None` table name
as a storage key) raise, as the Python code does. -/
def execTail (s : ExecState) (stg : Storage) (cmd : String) (d : Details)
    (raw : String) (tblOpt : Option String) : Except PErr (ExecState × List String) :=
  if cmd = "ALTER_TABLE" then
    match detGetColDef d "column" with
    | none => .error .keyError
    | some (cname, _) =>
      match tblOpt with
      | none => .error .keyError
      | some t =>
        match add_column stg t cname with
        | .error e => .error e
        | .ok stg' =>
          .ok (setActiveStorage s stg', ["Column '" ++ cname ++ "' added to '" ++ t ++ "'."])
  else if cmd = "DROP_TABLE" then
    match tblOpt with
    | none => .error .keyError
    | some t => .ok (setActiveStorage s (drop_table stg t), ["Table '" ++ t ++ "' dropped."])
  else if cmd = "CREATE_INDEX" then
    match detGetStr d "column" with
    | none => .error .keyError
    | some c =>
      match tblOpt with
      | none => .error .keyError
      | some t =>
        match create_index stg t c with
        | .error e => .error e
        | .ok stg' =>
          .ok (setActiveStorage s stg', ["Index on " ++ t ++ "." ++ c ++ " built."])
  else if cmd = "DROP_INDEX" then
    match detGetStr d "column" with
    | none => .error .keyError
    | some c =>
      match tblOpt with
      | none => .error .keyError
      | some t =>
        .ok (setActiveStorage s (drop_index stg t c),
          ["Index on " ++ t ++ "." ++ c ++ " removed."])
  else if cmd = "INSERT" then
    match detGetVals d "values" with
    | none => .error .keyError
    | some vs =>
      match tblOpt with
      | none => .error .keyError
      | some t =>
        match insert_row stg t vs with
        | .error e => .error e
        | .ok (stg', row) =>
          .ok ({ setActiveStorage s stg' with lsm := lsmLog s.lsm (.insertE s.active row) },
            ["1 row inserted."])
  else if cmd = "UPDATE" then
    match detGetAssigns d "assignments" with
    | none => .error .keyError
    | some asg =>
      match tblOpt with
      | none => .error .keyError
      | some t =>
        match update_rows stg t asg (detGetWhere d "where") with
        | .error e => .error e
        | .ok (stg', count) =>
          .ok ({ setActiveStorage s stg' with lsm := lsmLog s.lsm (.updateE s.active count) },
            [toString count ++ " row(s) updated."])
  else if cmd = "DELETE" then
    match tblOpt with
    | none => .error .keyError
    | some t =>
      match delete_rows stg t (detGetWhere d "where") with
      | .error e => .error e
      | .ok (stg', count) =>
        .ok ({ setActiveStorage s stg' with lsm := lsmLog s.lsm (.deleteE s.active count) },
          [toString count ++ " row(s) deleted."])
  else if cmd = "SELECT" then
    let j := detGetJoin d "join"
    match j with
    | some js =>
      if table_exists stg js.table = false then
        .ok (s, ["Table '" ++ js.table ++ "' not found."])
      else
        match detGetStrs d "columns" with
        | none => .error .keyError
        | some cols =>
          match tblOpt with
          | none => .error .keyError
          | some t =>
            match select_rows stg t cols (detGetWhere d "where") j with
            | .error e => .error e
            | .ok rows => .ok (s, formatRows rows cols)
    | none =>
      match detGetStrs d "columns" with
      | none => .error .keyError
      | some cols =>
        match tblOpt with
        | none => .error .keyError
        | some t =>
          match select_rows stg t cols (detGetWhere d "where") j with
          | .error e => .error e
          | .ok rows => .ok (s, formatRows rows cols)
  else if cmd = "COMMIT" then
    let (entries, remaining) := lsmCommit s.lsm
    .ok ({ s with lsm := remaining }, [commitMsg entries.length])
  else .ok (s, ["Command '" ++ raw ++ "' not understood."])

/-- `SQLExecutor.execute`: sequential dispatch, first match wins. -/
def execute (s : ExecState) (pc : ParsedCommand) : Except PErr (ExecState × List String) :=
  let cmd := pc.command
  let d := pc.details
  if cmd = "EMPTY" then .ok (s, [""])
  else if cmd = "CREATE_DATABASE" then
    match detGetStr d "name" with
    | none => .error .keyError
    | some n =>
      .ok ({ ensureDB s n with active := n }, ["Database '" ++ n ++ "' ready."])
  else if cmd = "ALTER_DATABASE" then
    match detGetStr d "name" with
    | none => .error .keyError
    | some n =>
      .ok ({ ensureDB s n with active := n }, ["Using database '" ++ n ++ "'."])
  else if cmd = "USE_DATABASE" then
    match detGetStr d "name" with
    | none => .error .keyError
    | some n =>
      if (alookup s.databases n).isNone then
        .ok (s, ["Database '" ++ n ++ "' not found."])
      else .ok ({ s with active := n }, ["Using database '" ++ n ++ "'."])
  else
    match alookup s.databases s.active with
    | none => .error .keyError
    | some stg =>
      let tblOpt := detGetStr d "table"
      if cmd = "CREATE_TABLE" then
        match tblOpt with
        | none => .error .keyError
        | some t =>
          if table_exists stg t then .ok (s, ["Table '" ++ t ++ "' already exists."])
          else
            match detGetCols d "columns" with
            | none => .error .keyError
            | some cds =>
              .ok (setActiveStorage s (create_table stg t (cds.map Prod.fst)),
                ["Table '" ++ t ++ "' created."])
      else
        match tblOpt with
        | some t =>
          if t ≠ "" ∧ table_exists stg t = false then
            .ok (s, ["Table '" ++ t ++ "' not found."])
          else execTail s stg cmd d pc.raw tblOpt
        | none => execTail s stg cmd d pc.raw tblOpt

/-- `DatabaseEngine.execute`: parse then execute. -/
def engineExecute (s : ExecState) (q : String) : Except PErr (ExecState × List String) :=
  match parse q with
  | .error e => .error e
  | .ok pc => execute s pc

/-- Execute a list of parsed commands in order, collecting the output of
each (the engine loop over successive `execute` calls). -/
def execSeq : ExecState → List ParsedCommand → Except PErr (ExecState × List (List String))
  | s, [] => .ok (s, [])
  | s, pc :: rest =>
    match execute s pc with
    | .error e => .error e
    | .ok (s1, out) =>
      match execSeq s1 rest with
      | .error e => .error e
      | .ok (s2, outs) => .ok (s2, out :: outs)

/-- A parsed command is a mutating statement that will be applied and
logged in the given state: INSERT/UPDATE/DELETE, with its payload keys
present and its target table existing in the active database. -/
def mutOkB (s : ExecState) (pc : ParsedCommand) : Bool :=
  match alookup s.databases s.active with
  | none => false
  | some stg =>
    match detGetStr pc.details "table" with
    | none => false
    | some t =>
      decide (t ≠ "") && table_exists stg t &&
        (if pc.command = "INSERT" then (detGetVals pc.details "values").isSome
         else if pc.command = "UPDATE" then (detGetAssigns pc.details "assignments").isSome
         else decide (pc.command = "DELETE"))

/-- Every command of the list is a successfully applied mutation when its
turn comes. -/
def mutSeqOk : ExecState → List ParsedCommand → Prop
  | _, [] => True
  | s, pc :: rest =>
    mutOkB s pc = true ∧
      match execute s pc with
      | .ok (s', _) => mutSeqOk s' rest
      | .error _ => False

/-! ### Reachable table-manager states

The table-manager operations as an operation language, applied the way the
executor applies them (an operation that raises leaves the state
unchanged, which matches the Python code: every `KeyError` fires before
any mutation). -/

/-- One table-manager mutation. -/
inductive Op where
  | createTable (t : String) (cols : List String)
  | dropTable (t : String)
  | addColumn (t c : String)
  | createIndex (t c : String)
  | dropIndex (t c : String)
  | insertRow (t : String) (vs : List Value)
  | updateRowsOp (t : String) (asg : List (String × Value)) (w : Option (String × Value))
  | deleteRowsOp (t : String) (w : Option (String × Value))
deriving DecidableEq

/-- Apply one operation to a `Storage`. -/
def applyOp (s : Storage) : Op → Storage
  | .createTable t cols => create_table s t cols
  | .dropTable t => drop_table s t
  | .addColumn t c => (add_column s t c).toOption.getD s
  | .createIndex t c => (create_index s t c).toOption.getD s
  | .dropIndex t c => drop_index s t c
  | .insertRow t vs => ((insert_row s t vs).toOption.map Prod.fst).getD s
  | .updateRowsOp t asg w => ((update_rows s t asg w).toOption.map Prod.fst).getD s
  | .deleteRowsOp t w => ((delete_rows s t w).toOption.map Prod.fst).getD s

/-- Apply a statement sequence to a fresh database. -/
def applyOps (ops : List Op) : Storage := ops.foldl applyOp []

/-- The index-derivability invariant of one table: index column names are
unique and every index is exactly the grouping of the current rows. -/
def tblInv (tbl : Table) : Prop :=
  (tbl.indexes.map Prod.fst).Nodup ∧
    ∀ c idx, (c, idx) ∈ tbl.indexes → idx = buildIndex tbl.rows c

/-- The invariant over a whole `Storage`. -/
def storInv (s : Storage) : Prop := ∀ n tbl, (n, tbl) ∈ s → tblInv tbl

/-- Observational equality of two tables: same columns and rows, and
index lookups agree on every column. -/
def tableObsEq (t1 t2 : Table) : Prop :=
  t1.columns = t2.columns ∧ t1.rows = t2.rows ∧
    ∀ c, alookup t1.indexes c = alookup t2.indexes c

/-- Observational equality of two storages: lookups agree up to
observational table equality. -/
def storObsEq (s1 s2 : Storage) : Prop :=
  ∀ n, (alookup s1 n = none ∧ alookup s2 n = none) ∨
    ∃ t1 t2, alookup s1 n = some t1 ∧ alookup s2 n = some t2 ∧ tableObsEq t1 t2


/-! ### Value equality and dict lemmas -/

theorem pyEqB_refl (a : Value) : pyEqB a a = true := by simp [pyEqB]

theorem pyEqB_symm {a b : Value} (h : pyEqB a b = true) : pyEqB b a = true := by
  simp [pyEqB] at *; exact h.symm

theorem pyEqB_trans {a b c : Value} (h1 : pyEqB a b = true) (h2 : pyEqB b c = true) :
    pyEqB a c = true := by
  simp [pyEqB] at *; exact h1.trans h2

theorem alookup_aset {α : Type} (l : List (String × α)) (k : String) (v : α) (k' : String) :
    alookup (aset l k v) k' = if k' = k then some v else alookup l k' := by
  induction l with
  | nil => by_cases h : k' = k <;> simp [aset, alookup, h]
  | cons p rest ih =>
    obtain ⟨k0, w⟩ := p
    by_cases h0 : k = k0
    · subst h0
      by_cases h : k' = k <;> simp [aset, alookup, h]
    · by_cases h : k' = k0
      · subst h
        have : ¬ (k' = k) := fun he => h0 (he ▸ rfl)
        simp [aset, alookup, h0, this, fun he => h0 (Eq.symm he)]
      · simp [aset, alookup, h0, h, fun he => h0 (Eq.symm he), ih]

theorem mem_aset {α : Type} {l : List (String × α)} {k : String} {v : α} {e : String × α}
    (h : e ∈ aset l k v) : e ∈ l ∨ e = (k, v) := by
  induction l with
  | nil => simpa [aset] using h
  | cons p rest ih =>
    obtain ⟨k0, w⟩ := p
    by_cases h0 : k = k0
    · subst h0
      simp [aset] at h
      rcases h with h | h
      · right; simp [h]
      · left; simp [h]
    · simp [aset, h0] at h
      rcases h with h | h
      · left; simp [h]
      · rcases ih h with h' | h'
        · left; simp [h']
        · right; exact h'

theorem mem_aerase {α : Type} {l : List (String × α)} {k : String} {e : String × α}
    (h : e ∈ aerase l k) : e ∈ l := by
  induction l with
  | nil => simp [aerase] at h
  | cons p rest ih =>
    obtain ⟨k0, w⟩ := p
    by_cases h0 : k = k0 <;> simp [aerase, h0] at h
    · simp [h]
    · rcases h with h | h
      · simp [h]
      · simp [ih h]

theorem aset_of_not_mem {α : Type} {l : List (String × α)} {k : String} (v : α)
    (h : k ∉ l.map Prod.fst) : aset l k v = l ++ [(k, v)] := by
  induction l with
  | nil => simp [aset]
  | cons p rest ih =>
    obtain ⟨k0, w⟩ := p
    simp at h
    have hrest : k ∉ rest.map Prod.fst := by
      simp
      intro x hx
      exact h.2 x hx
    simp [aset, h.1, ih hrest]

theorem alookup_eq_none_iff {α : Type} (l : List (String × α)) (k : String) :
    alookup l k = none ↔ k ∉ l.map Prod.fst := by
  induction l with
  | nil => simp [alookup]
  | cons p rest ih =>
    obtain ⟨k0, w⟩ := p
    by_cases h : k = k0 <;> simp [alookup, h, ih]

theorem alookup_mem {α : Type} {l : List (String × α)} {k : String} {v : α}
    (h : alookup l k = some v) : (k, v) ∈ l := by
  induction l with
  | nil => simp [alookup] at h
  | cons p rest ih =>
    obtain ⟨k0, w⟩ := p
    by_cases h0 : k = k0
    · subst h0
      simp [alookup] at h
      simp [h]
    · simp [alookup, h0] at h
      simp [ih h]

/-! ### Bucket and index lemmas -/

theorem rowsAt_range (rows : List Row) : rowsAt rows (List.range rows.length) = rows := by
  induction rows with
  | nil => simp [rowsAt]
  | cons r rs ih =>
    simp only [rowsAt, List.length_cons, List.range_succ_eq_map, List.filterMap_cons]
    simp only [List.get?_cons_zero, List.filterMap_map]
    have h2 : (List.filterMap ((r :: rs).get? ∘ Nat.succ) (List.range rs.length)) = rs := by
      have h3 : (r :: rs).get? ∘ Nat.succ = rs.get? := by
        funext i
        simp
      rw [h3]
      simpa [rowsAt] using ih
    simp [h2]

theorem pyEqB_iff {a b : Value} : pyEqB a b = true ↔ normV a = normV b := by
  simp [pyEqB]

theorem bucketGet_bucketAppend (idx : Index) (u : Value) (i : Nat) (v : Value) :
    bucketGet (bucketAppend idx u i) v =
      if pyEqB u v then bucketGet idx v ++ [i] else bucketGet idx v := by
  induction idx with
  | nil =>
    by_cases h : pyEqB u v = true <;> simp [bucketAppend, bucketGet, h]
  | cons p rest ih =>
    obtain ⟨k, b⟩ := p
    by_cases hku : normV k = normV u
    · have h1 : pyEqB k u = true := pyEqB_iff.mpr hku
      have h2 : pyEqB k v = pyEqB u v := by
        simp only [pyEqB, hku]
      simp only [bucketAppend, h1, if_true, bucketGet, h2]
      by_cases huv : pyEqB u v = true <;> simp [huv]
    · have h1 : pyEqB k u = false := by
        rw [Bool.eq_false_iff]
        intro hc
        exact hku (pyEqB_iff.mp hc)
      simp only [bucketAppend, h1, Bool.false_eq_true, if_false, bucketGet]
      by_cases hkv : pyEqB k v = true
      · have huv : pyEqB u v = false := by
          rw [Bool.eq_false_iff]
          intro hc
          exact hku ((pyEqB_iff.mp hkv).trans (pyEqB_iff.mp hc).symm)
        simp [bucketGet, hkv, huv]
      · simp [bucketGet, hkv, ih]

theorem bucketGet_buildIndexFrom (c : String) (v : Value) :
    ∀ (rows : List Row) (i : Nat) (acc : Index),
      bucketGet (buildIndexFrom c i rows acc) v =
        bucketGet acc v ++
          ((List.enumFrom i rows).filter (fun p => pyEqB (rowGetD p.2 c) v)).map Prod.fst := by
  intro rows
  induction rows with
  | nil => intro i acc; simp [buildIndexFrom]
  | cons r rs ih =>
    intro i acc
    simp only [buildIndexFrom, ih, bucketGet_bucketAppend, List.enumFrom, List.filter]
    by_cases h : pyEqB (rowGetD r c) v = true
    · simp [h]
    · simp [h]

theorem bucketGet_buildIndex (rows : List Row) (c : String) (v : Value) :
    bucketGet (buildIndex rows c) v =
      ((List.enumFrom 0 rows).filter (fun p => pyEqB (rowGetD p.2 c) v)).map Prod.fst := by
  simp [buildIndex, bucketGet_buildIndexFrom, bucketGet]

theorem rowsAt_enumFilter (pred : Row → Bool) :
    ∀ (l : List Row) (off : Nat) (full : List Row),
      (∀ j, full.get? (off + j) = l.get? j) →
      rowsAt full (((List.enumFrom off l).filter (fun p => pred p.2)).map Prod.fst) =
        l.filter pred := by
  intro l
  induction l with
  | nil => intro off full _; simp [rowsAt]
  | cons r rs ih =>
    intro off full hfull
    have h0 : full.get? off = some r := by
      have := hfull 0
      simpa using this
    have hshift : ∀ j, full.get? (off + 1 + j) = rs.get? j := by
      intro j
      have := hfull (j + 1)
      simpa [Nat.add_comm, Nat.add_assoc, Nat.add_left_comm] using this
    simp only [List.enumFrom, List.filter]
    by_cases h : pred r = true
    · simp only [h, List.map_cons, rowsAt, List.filterMap_cons, h0]
      have := ih (off + 1) full hshift
      simp only [rowsAt] at this
      simp [this, List.filter, h]
    · have := ih (off + 1) full hshift
      simp only [rowsAt] at this
      simp [h, rowsAt, this, List.filter]

theorem rowsForList_none (tbl : Table) : rowsForList tbl none = tbl.rows := by
  simp [rowsForList, matchedPos, rowsAt_range]

/-- Under the invariant, both `_rows_for` paths agree with the linear scan. -/
theorem rowsForList_eq_filter {tbl : Table} (hinv : tblInv tbl) (c : String) (v : Value) :
    rowsForList tbl (some (c, v)) = tbl.rows.filter (fun r => pyEqB (rowGetD r c) v) := by
  simp only [rowsForList, matchedPos]
  cases hidx : alookup tbl.indexes c with
  | none =>
    exact rowsAt_enumFilter (fun r => pyEqB (rowGetD r c) v) tbl.rows 0 tbl.rows
      (fun j => by simp)
  | some idx =>
    have hmem := alookup_mem hidx
    have hval := hinv.2 c idx hmem
    rw [hval]
    show rowsAt tbl.rows (bucketGet (buildIndex tbl.rows c) v) = _
    rw [bucketGet_buildIndex]
    exact rowsAt_enumFilter (fun r => pyEqB (rowGetD r c) v) tbl.rows 0 tbl.rows
      (fun j => by simp)

/-! ### Invariant preservation -/

theorem buildIndexFrom_append (c : String) (r : Row) :
    ∀ (rows : List Row) (i : Nat) (acc : Index),
      buildIndexFrom c i (rows ++ [r]) acc =
        bucketAppend (buildIndexFrom c i rows acc) (rowGetD r c) (i + rows.length) := by
  intro rows
  induction rows with
  | nil => intro i acc; simp [buildIndexFrom]
  | cons r0 rs ih =>
    intro i acc
    show buildIndexFrom c (i + 1) (rs ++ [r]) (bucketAppend acc (rowGetD r0 c) i) =
      bucketAppend (buildIndexFrom c (i + 1) rs (bucketAppend acc (rowGetD r0 c) i))
        (rowGetD r c) (i + (rs.length + 1))
    rw [ih]
    have harith : i + 1 + rs.length = i + (rs.length + 1) := by omega
    rw [harith]

theorem buildIndex_append (rows : List Row) (r : Row) (c : String) :
    buildIndex (rows ++ [r]) c =
      bucketAppend (buildIndex rows c) (rowGetD r c) rows.length := by
  simp [buildIndex, buildIndexFrom_append]

theorem buildIndexFrom_congr (c : String) :
    ∀ {rows1 rows2 : List Row},
      List.Forall₂ (fun a b => rowGetD a c = rowGetD b c) rows1 rows2 →
      ∀ (i : Nat) (acc : Index), buildIndexFrom c i rows1 acc = buildIndexFrom c i rows2 acc := by
  intro rows1 rows2 h
  induction h with
  | nil => intro i acc; rfl
  | cons hab _ ih =>
    intro i acc
    simp only [buildIndexFrom, hab]
    exact ih (i + 1) _

theorem buildIndex_congr {c : String} {rows1 rows2 : List Row}
    (h : List.Forall₂ (fun a b => rowGetD a c = rowGetD b c) rows1 rows2) :
    buildIndex rows1 c = buildIndex rows2 c :=
  buildIndexFrom_congr c h 0 []

theorem alookup_applyAssigns_of_not_mem {asg : List (String × Value)} {c : String}
    (h : c ∉ asg.map Prod.fst) : ∀ r : Row, alookup (applyAssigns r asg) c = alookup r c := by
  induction asg with
  | nil => intro r; rfl
  | cons p ps ih =>
    intro r
    simp only [List.map_cons, List.mem_cons] at h
    push_neg at h
    simp only [applyAssigns, List.foldl_cons]
    have := ih (by simpa using h.2) (rowSet r p.1 p.2)
    simp only [applyAssigns] at this
    rw [this, rowSet, alookup_aset, if_neg h.1]

theorem forall₂_updAt {asg : List (String × Value)} {c : String} (ps : List Nat)
    (h : c ∉ asg.map Prod.fst) :
    ∀ (rows : List Row) (i : Nat),
      List.Forall₂ (fun a b => rowGetD a c = rowGetD b c) rows (updAt ps asg i rows) := by
  intro rows
  induction rows with
  | nil => intro i; simp [updAt]
  | cons r rs ih =>
    intro i
    simp only [updAt]
    refine List.Forall₂.cons ?_ (ih (i + 1))
    by_cases hm : i ∈ ps
    · simp [hm, rowGetD, alookup_applyAssigns_of_not_mem h]
    · simp [hm]

theorem updAt_length (ps : List Nat) (asg : List (String × Value)) :
    ∀ (rows : List Row) (i : Nat), (updAt ps asg i rows).length = rows.length := by
  intro rows
  induction rows with
  | nil => intro i; rfl
  | cons r rs ih => intro i; simp [updAt, ih]

/-- `create_table` preserves the invariant. -/
theorem storInv_create_table {s : Storage} (hinv : storInv s) (t : String)
    (cols : List String) : storInv (create_table s t cols) := by
  intro n tbl hmem
  rcases mem_aset hmem with h | h
  · exact hinv n tbl h
  · cases h
    constructor
    · simp
    · intro c idx hc
      simp at hc

/-- `drop_table` preserves the invariant. -/
theorem storInv_drop_table {s : Storage} (hinv : storInv s) (t : String) :
    storInv (drop_table s t) := by
  intro n tbl hmem
  exact hinv n tbl (mem_aerase hmem)

/-- `add_column` preserves the invariant. -/
theorem storInv_add_column {s : Storage} (hinv : storInv s) (t c : String) {s' : Storage}
    (hok : add_column s t c = .ok s') : storInv s' := by
  unfold add_column at hok
  cases hlk : alookup s t with
  | none => rw [hlk] at hok; cases hok
  | some tbl =>
    rw [hlk] at hok
    by_cases hc : c ∈ tbl.columns
    · simp only [hc, if_true] at hok
      cases hok
      exact hinv
    · simp only [hc, if_false] at hok
      cases hok
      intro n tbl' hmem
      rcases mem_aset hmem with h | h
      · exact hinv n tbl' h
      · cases h
        have hold := hinv t tbl (alookup_mem hlk)
        constructor
        · rw [List.map_map]
          have hcomp : (Prod.fst ∘ fun p : String × Index =>
              (p.1, buildIndex (tbl.rows.map (fun r => rowSet r c vNull)) p.1)) = Prod.fst := rfl
          rw [hcomp]
          exact hold.1
        · intro c' idx hc'
          simp only [List.mem_map, Prod.mk.injEq] at hc'
          obtain ⟨p, _, h1, h2⟩ := hc'
          subst h1
          subst h2
          rfl

/-- `create_index` preserves the invariant. -/
theorem storInv_create_index {s : Storage} (hinv : storInv s) (t c : String) {s' : Storage}
    (hok : create_index s t c = .ok s') : storInv s' := by
  unfold create_index at hok
  cases hlk : alookup s t with
  | none => rw [hlk] at hok; cases hok
  | some tbl =>
    rw [hlk] at hok
    by_cases hc : (alookup tbl.indexes c).isSome
    · simp only [hc, if_true] at hok
      cases hok
      exact hinv
    · simp only [hc, if_false] at hok
      cases hok
      intro n tbl' hmem
      rcases mem_aset hmem with h | h
      · exact hinv n tbl' h
      · cases h
        have hold := hinv t tbl (alookup_mem hlk)
        have hnone : alookup tbl.indexes c = none := by
          cases halt : alookup tbl.indexes c with
          | none => rfl
          | some x => simp [halt] at hc
        have hnot : c ∉ tbl.indexes.map Prod.fst := (alookup_eq_none_iff _ _).mp hnone
        constructor
        · simp only [aset_of_not_mem _ hnot, List.map_append, List.map_cons, List.map_nil]
          refine List.Nodup.append hold.1 (by simp) ?_
          intro a ha hb
          simp at hb
          subst hb
          exact hnot ha
        · intro c' idx hc'
          rw [aset_of_not_mem _ hnot] at hc'
          simp only [List.mem_append, List.mem_cons, List.mem_singleton, Prod.mk.injEq,
            List.not_mem_nil, or_false] at hc'
          rcases hc' with h | ⟨h1, h2⟩
          · exact hold.2 c' idx h
          · subst h1
            subst h2
            rfl

/-- `drop_index` preserves the invariant. -/
theorem storInv_drop_index {s : Storage} (hinv : storInv s) (t c : String) :
    storInv (drop_index s t c) := by
  unfold drop_index
  cases hlk : alookup s t with
  | none => exact hinv
  | some tbl =>
    intro n tbl' hmem
    rcases mem_aset hmem with h | h
    · exact hinv n tbl' h
    · cases h
      have hold := hinv t tbl (alookup_mem hlk)
      constructor
      · have hsub : ((aerase tbl.indexes c).map Prod.fst).Sublist (tbl.indexes.map Prod.fst) := by
          refine List.Sublist.map Prod.fst ?_
          clear hold
          induction tbl.indexes with
          | nil => simp [aerase]
          | cons p rest ih =>
            by_cases hp : c = p.1
            · simp only [aerase, hp, if_pos rfl]
              exact List.sublist_cons_self p rest
            · simp only [aerase]
              rw [if_neg ?_]
              · exact List.Sublist.cons₂ p ih
              · cases p; simpa using hp
        exact hold.1.sublist hsub
      · intro c' idx hc'
        exact hold.2 c' idx (mem_aerase hc')

/-- `insert_row` preserves the invariant. -/
theorem storInv_insert_row {s : Storage} (hinv : storInv s) (t : String) (vs : List Value)
    {s' : Storage} {row : Row} (hok : insert_row s t vs = .ok (s', row)) : storInv s' := by
  unfold insert_row at hok
  cases hlk : alookup s t with
  | none => rw [hlk] at hok; cases hok
  | some tbl =>
    rw [hlk] at hok
    cases hok
    intro n tbl' hmem
    rcases mem_aset hmem with h | h
    · exact hinv n tbl' h
    · cases h
      have hold := hinv t tbl (alookup_mem hlk)
      constructor
      · rw [List.map_map]
        have hcomp : (Prod.fst ∘ fun p : String × Index =>
            (p.1, bucketAppend p.2 (rowGetD (mkRow tbl.columns vs) p.1) tbl.rows.length)) =
              Prod.fst := rfl
        rw [hcomp]
        exact hold.1
      · intro c' idx hc'
        simp only [List.mem_map, Prod.mk.injEq] at hc'
        obtain ⟨p, hp, h1, h2⟩ := hc'
        subst h1
        subst h2
        show bucketAppend p.2 _ _ = buildIndex (tbl.rows ++ [mkRow tbl.columns vs]) p.1
        rw [hold.2 p.1 p.2 hp, buildIndex_append]

/-- `update_rows` preserves the invariant. -/
theorem storInv_update_rows {s : Storage} (hinv : storInv s) (t : String)
    (asg : List (String × Value)) (w : Option (String × Value)) {s' : Storage} {k : Nat}
    (hok : update_rows s t asg w = .ok (s', k)) : storInv s' := by
  unfold update_rows at hok
  cases hlk : alookup s t with
  | none => rw [hlk] at hok; cases hok
  | some tbl =>
    rw [hlk] at hok
    cases hok
    intro n tbl' hmem
    rcases mem_aset hmem with h | h
    · exact hinv n tbl' h
    · cases h
      have hold := hinv t tbl (alookup_mem hlk)
      constructor
      · have : (tbl.indexes.map (fun p =>
            if p.1 ∈ asg.map Prod.fst
            then (p.1, buildIndex (updAt (matchedPos tbl w) asg 0 tbl.rows) p.1)
            else p)).map Prod.fst = tbl.indexes.map Prod.fst := by
          rw [List.map_map]
          refine List.map_congr_left ?_
          intro p _
          by_cases hp : p.1 ∈ asg.map Prod.fst <;> simp [hp]
        rw [this]
        exact hold.1
      · intro c' idx hc'
        simp only [List.mem_map] at hc'
        obtain ⟨p, hp, hpe⟩ := hc'
        by_cases hpa : p.1 ∈ asg.map Prod.fst
        · have hpa2 : ∃ a ∈ asg, a.1 = p.1 := by simpa [List.mem_map] using hpa
          simp only [hpa2, if_true, Prod.mk.injEq] at hpe
          obtain ⟨h1, h2⟩ := hpe
          subst h1
          subst h2
          rfl
        · have hpa2 : ¬ ∃ a ∈ asg, a.1 = p.1 := by simpa [List.mem_map] using hpa
          simp only [hpa2, if_false] at hpe
          subst hpe
          show _ = buildIndex (updAt (matchedPos tbl w) asg 0 tbl.rows) _
          rw [hold.2 c' idx hp]
          exact buildIndex_congr (forall₂_updAt (matchedPos tbl w) hpa tbl.rows 0)

/-- `delete_rows` preserves the invariant. -/
theorem storInv_delete_rows {s : Storage} (hinv : storInv s) (t : String)
    (w : Option (String × Value)) {s' : Storage} {k : Nat}
    (hok : delete_rows s t w = .ok (s', k)) : storInv s' := by
  unfold delete_rows at hok
  cases hlk : alookup s t with
  | none => rw [hlk] at hok; cases hok
  | some tbl =>
    rw [hlk] at hok
    cases hok
    intro n tbl' hmem
    rcases mem_aset hmem with h | h
    · exact hinv n tbl' h
    · cases h
      have hold := hinv t tbl (alookup_mem hlk)
      constructor
      · have : (tbl.indexes.map (fun p => (p.1, buildIndex
            (match w with
             | none => []
             | some (c, v) => tbl.rows.filter (fun r => ¬ pyEqB (rowGetD r c) v)) p.1))).map
            Prod.fst = tbl.indexes.map Prod.fst := by
          rw [List.map_map]
          rfl
        rw [this]
        exact hold.1
      · intro c' idx hc'
        simp only [List.mem_map, Prod.mk.injEq] at hc'
        obtain ⟨p, _, h1, h2⟩ := hc'
        subst h1
        subst h2
        rfl

/-- One operation preserves the invariant (an operation that raises leaves
the state unchanged). -/
theorem storInv_applyOp {s : Storage} (hinv : storInv s) (op : Op) :
    storInv (applyOp s op) := by
  cases op with
  | createTable t cols => exact storInv_create_table hinv t cols
  | dropTable t => exact storInv_drop_table hinv t
  | addColumn t c =>
    simp only [applyOp]
    cases hres : add_column s t c with
    | error e => simpa [hres] using hinv
    | ok s' =>
      simpa [hres] using storInv_add_column hinv t c hres
  | createIndex t c =>
    simp only [applyOp]
    cases hres : create_index s t c with
    | error e => simpa [hres] using hinv
    | ok s' =>
      simpa [hres] using storInv_create_index hinv t c hres
  | dropIndex t c => exact storInv_drop_index hinv t c
  | insertRow t vs =>
    simp only [applyOp]
    cases hres : insert_row s t vs with
    | error e => simpa [hres] using hinv
    | ok pr =>
      obtain ⟨s', row⟩ := pr
      simpa [hres] using storInv_insert_row hinv t vs hres
  | updateRowsOp t asg w =>
    simp only [applyOp]
    cases hres : update_rows s t asg w with
    | error e => simpa [hres] using hinv
    | ok pr =>
      obtain ⟨s', k⟩ := pr
      simpa [hres] using storInv_update_rows hinv t asg w hres
  | deleteRowsOp t w =>
    simp only [applyOp]
    cases hres : delete_rows s t w with
    | error e => simpa [hres] using hinv
    | ok pr =>
      obtain ⟨s', k⟩ := pr
      simpa [hres] using storInv_delete_rows hinv t w hres

/-! ### Projection lookup -/

theorem alookup_foldl_rowSet (g : String → Value) :
    ∀ (cols : List String) (acc : Row) (c : String),
      alookup (cols.foldl (fun pr c0 => rowSet pr c0 (g c0)) acc) c =
        if c ∈ cols then some (g c) else alookup acc c := by
  intro cols
  induction cols with
  | nil => intro acc c; simp
  | cons c0 cs ih =>
    intro acc c
    simp only [List.foldl_cons, ih, List.mem_cons]
    by_cases hcs : c ∈ cs
    · simp [hcs]
    · by_cases hc0 : c = c0
      · subst hc0
        simp [hcs, rowSet, alookup_aset]
      · simp [hcs, hc0, rowSet, alookup_aset]

theorem alookup_projectRow (cols : List String) (r : Row) (c : String) :
    alookup (projectRow cols r) c =
      if c ∈ cols then some (rowGetD r (unqualSuffix c)) else none := by
  have h := alookup_foldl_rowSet (fun c0 => rowGetD r (unqualSuffix c0)) cols ([] : Row) c
  simpa [projectRow] using h

/-! ### Pager blob round trip -/

theorem chunkPages_flatten (ps : Nat) (hps : 0 < ps) :
    ∀ (n : Nat) (l : List Nat), l.length ≤ n → (chunkPages ps l).flatten = l := by
  intro n
  induction n with
  | zero =>
    intro l hl
    have : l = [] := List.eq_nil_of_length_eq_zero (Nat.le_zero.mp hl)
    subst this
    rw [chunkPages]
    simp
  | succ n ih =>
    intro l hl
    rw [chunkPages]
    by_cases he : l = []
    · simp [he]
    · have hcond : ¬ (ps = 0 ∨ l = []) := by
        push_neg
        exact ⟨Nat.pos_iff_ne_zero.mp hps, he⟩
      simp only [hcond, dite_false]
      have hlen : (l.drop ps).length ≤ n := by
        have h1 : 0 < l.length := List.length_pos.mpr he
        simp only [List.length_drop]
        omega
      rw [List.flatten_cons, ih (l.drop ps) hlen, List.take_append_drop]

theorem chunkPages_ne_nil (ps : Nat) (l : List Nat) (hps : 0 < ps) (hl : l ≠ []) :
    chunkPages ps l ≠ [] := by
  rw [chunkPages]
  have hcond : ¬ (ps = 0 ∨ l = []) := by
    push_neg
    exact ⟨Nat.pos_iff_ne_zero.mp hps, hl⟩
  simp [hcond]

/-- Every state reachable from the fresh database satisfies the invariant. -/
theorem storInv_applyOps (ops : List Op) : storInv (applyOps ops) := by
  rw [applyOps]
  have hgen : ∀ s : Storage, storInv s → storInv (ops.foldl applyOp s) := by
    induction ops with
    | nil => intro s h; exact h
    | cons op rest ih =>
      intro s h
      exact ih _ (storInv_applyOp h op)
  exact hgen [] (by intro n tbl h; simp at h)

/-! ### Snapshot round trip (C4) -/

theorem alookup_map_snd {α β : Type} (f : α → β) :
    ∀ (l : List (String × α)) (k : String),
      alookup (l.map (fun p => (p.1, f p.2))) k = (alookup l k).map f := by
  intro l
  induction l with
  | nil => intro k; rfl
  | cons p rest ih =>
    intro k
    obtain ⟨k0, v⟩ := p
    by_cases h : k = k0 <;> simp [alookup, h, ih]

theorem alookup_foldl_aset {α : Type} (f : String → α) :
    ∀ (ns : List String) (acc : List (String × α)) (k : String),
      alookup (ns.foldl (fun a c => aset a c (f c)) acc) k =
        if k ∈ ns then some (f k) else alookup acc k := by
  intro ns
  induction ns with
  | nil => intro acc k; simp
  | cons c0 cs ih =>
    intro acc k
    simp only [List.foldl_cons, ih, List.mem_cons]
    by_cases hcs : k ∈ cs
    · simp [hcs]
    · by_cases hc0 : k = c0
      · subst hc0
        simp [hcs, alookup_aset]
      · simp [hcs, hc0, alookup_aset]

theorem map_fst_foldl_aset {α : Type} (f : String → α) :
    ∀ (ns : List String) (acc : List (String × α)), ns.Nodup →
      (∀ c ∈ ns, c ∉ acc.map Prod.fst) →
      (ns.foldl (fun a c => aset a c (f c)) acc).map Prod.fst = acc.map Prod.fst ++ ns := by
  intro ns
  induction ns with
  | nil => intro acc _ _; simp
  | cons c0 cs ih =>
    intro acc hnd hdisj
    simp only [List.foldl_cons]
    have hset : aset acc c0 (f c0) = acc ++ [(c0, f c0)] :=
      aset_of_not_mem _ (hdisj c0 (by simp))
    rw [hset]
    have hnd' : cs.Nodup := (List.nodup_cons.mp hnd).2
    have hc0 : c0 ∉ cs := (List.nodup_cons.mp hnd).1
    have hdisj' : ∀ c ∈ cs, c ∉ (acc ++ [(c0, f c0)]).map Prod.fst := by
      intro c hc
      simp only [List.map_append, List.mem_append, List.map_cons, List.map_nil,
        List.mem_singleton, not_or]
      refine ⟨hdisj c (by simp [hc]), ?_⟩
      intro he
      subst he
      exact hc0 hc
    rw [ih _ hnd' hdisj']
    simp

theorem mem_sortStr {c : String} {l : List String} : c ∈ sortStr l ↔ c ∈ l :=
  (List.perm_insertionSort _ l).mem_iff

theorem nodup_sortStr {l : List String} (h : l.Nodup) : (sortStr l).Nodup :=
  ((List.perm_insertionSort _ l).nodup_iff).mpr h

theorem sortStr_sortStr (l : List String) : sortStr (sortStr l) = sortStr l :=
  List.Sorted.insertionSort_eq (List.sorted_insertionSort _ l)

theorem loadTable_obsEq {tbl : Table} (hinv : tblInv tbl) :
    tableObsEq (loadTable ⟨tbl.columns, tbl.rows, sortStr (tbl.indexes.map Prod.fst)⟩) tbl := by
  refine ⟨rfl, rfl, fun c => ?_⟩
  show alookup ((sortStr (tbl.indexes.map Prod.fst)).foldl
      (fun idxs c0 => aset idxs c0 (buildIndex tbl.rows c0)) []) c = alookup tbl.indexes c
  rw [alookup_foldl_aset]
  cases hlk : alookup tbl.indexes c with
  | some idx =>
    have hmem : c ∈ tbl.indexes.map Prod.fst := by
      have := alookup_mem hlk
      exact List.mem_map.mpr ⟨(c, idx), this, rfl⟩
    rw [if_pos (mem_sortStr.mpr hmem), hinv.2 c idx (alookup_mem hlk)]
  | none =>
    have hmem : c ∉ tbl.indexes.map Prod.fst := (alookup_eq_none_iff _ _).mp hlk
    rw [if_neg (fun hin => hmem (mem_sortStr.mp hin))]
    rfl

theorem matchedPos_obsEq {t1 t2 : Table} (h : tableObsEq t1 t2)
    (w : Option (String × Value)) : matchedPos t1 w = matchedPos t2 w := by
  obtain ⟨hcols, hrows, hidx⟩ := h
  cases w with
  | none => simp [matchedPos, hrows]
  | some p =>
    obtain ⟨c, v⟩ := p
    simp only [matchedPos, hidx c, hrows]

theorem rowsForList_obsEq {t1 t2 : Table} (h : tableObsEq t1 t2)
    (w : Option (String × Value)) : rowsForList t1 w = rowsForList t2 w := by
  unfold rowsForList
  rw [matchedPos_obsEq h w, h.2.1]

theorem selectT_obsEq {t1 t2 : Table} (h : tableObsEq t1 t2) (cols : List String)
    (w : Option (String × Value)) : selectT t1 cols w = selectT t2 cols w := by
  unfold selectT
  rw [rowsForList_obsEq h w]

theorem joinRowsT_obsEq {s1 s2 : Storage} (h : storObsEq s1 s2) (t : String)
    (cols : List String) (w : Option (String × Value)) (j : JoinSpec) :
    joinRowsT s1 t cols w j = joinRowsT s2 t cols w j := by
  unfold joinRowsT
  rcases h t with ⟨h1, h2⟩ | ⟨t1, t2, h1, h2, he⟩
  · rw [h1, h2]
  · simp only [h1, h2]
    rcases h j.table with ⟨g1, g2⟩ | ⟨r1, r2, g1, g2, ge⟩
    · rw [g1, g2]
    · simp only [g1, g2]
      rw [rowsForList_obsEq he w, ge.2.2 j.rc, ge.2.1, ge.1, he.1]

theorem select_rows_obsEq {s1 s2 : Storage} (h : storObsEq s1 s2) (t : String)
    (cols : List String) (w : Option (String × Value)) (j : Option JoinSpec) :
    select_rows s1 t cols w j = select_rows s2 t cols w j := by
  cases j with
  | some js => exact joinRowsT_obsEq h t cols w js
  | none =>
    unfold select_rows
    rcases h t with ⟨h1, h2⟩ | ⟨t1, t2, h1, h2, he⟩
    · rw [h1, h2]
    · simp only [h1, h2]
      rw [selectT_obsEq he cols w]

theorem loadSnap_persistSnap (s : Storage) :
    loadSnap (persistSnap s) = s.map (fun p =>
      (p.1, loadTable ⟨p.2.columns, p.2.rows, sortStr (p.2.indexes.map Prod.fst)⟩)) := by
  simp [loadSnap, persistSnap, List.map_map, Function.comp]

theorem storObsEq_load {s : Storage} (hinv : storInv s) :
    storObsEq (loadSnap (persistSnap s)) s := by
  intro n
  rw [loadSnap_persistSnap]
  have hm := alookup_map_snd
    (fun tbl : Table => loadTable ⟨tbl.columns, tbl.rows, sortStr (tbl.indexes.map Prod.fst)⟩)
    s n
  cases hlk : alookup s n with
  | none =>
    left
    rw [hlk] at hm
    exact ⟨hm, rfl⟩
  | some tbl =>
    right
    rw [hlk] at hm
    exact ⟨_, tbl, hm, rfl, loadTable_obsEq (hinv n tbl (alookup_mem hlk))⟩

theorem describeS_load {s : Storage} (hinv : storInv s) :
    describeS (loadSnap (persistSnap s)) = describeS s := by
  rw [loadSnap_persistSnap]
  unfold describeS
  rw [List.map_map]
  refine List.map_congr_left (fun p hp => ?_)
  obtain ⟨n, tbl⟩ := p
  have htinv := hinv n tbl hp
  simp only [Function.comp]
  refine congrArg _ ?_
  refine congrArg _ ?_
  show sortStr (((sortStr (tbl.indexes.map Prod.fst)).foldl
      (fun idxs c0 => aset idxs c0 (buildIndex tbl.rows c0)) []).map Prod.fst) =
    sortStr (tbl.indexes.map Prod.fst)
  rw [map_fst_foldl_aset _ _ _ (nodup_sortStr htinv.1) (by simp)]
  simp [sortStr_sortStr]

/-! ### Claim theorems -/

/-- C4: for any sequence of DDL/DML operations applied to a fresh
database, serializing the table manager's state (columns, rows, sorted
index names) and loading it into a new instance (rebuilding each index
from the rows) yields identical `describe()` output and identical results
for every SELECT query, with or without WHERE and JOIN. -/
theorem claim_C4 (ops : List Op) :
    describeS (loadSnap (persistSnap (applyOps ops))) = describeS (applyOps ops) ∧
    ∀ (t : String) (cols : List String) (w : Option (String × Value)) (j : Option JoinSpec),
      select_rows (loadSnap (persistSnap (applyOps ops))) t cols w j =
        select_rows (applyOps ops) t cols w j := by
  have hinv := storInv_applyOps ops
  exact ⟨describeS_load hinv,
    fun t cols w j => select_rows_obsEq (storObsEq_load hinv) t cols w j⟩

/-- C3: for every byte payload, writing it with the Pager's `write_blob`
and reading it back with `read_blob` returns exactly the original payload:
the concatenation of all pages truncated to the recorded length reproduces
the bytes, and an empty payload reads back as empty bytes. -/
theorem claim_C3 (st : PagerState) (data : List Nat) (hps : 0 < st.page_size) :
    read_blob (write_blob st data) = data := by
  by_cases hd : data = []
  · subst hd
    simp [write_blob, read_blob]
  · simp only [write_blob, hd, if_false]
    have hbne : data ++ List.replicate
        ((data.length + st.page_size - 1) / st.page_size * st.page_size - data.length) 0 ≠ [] := by
      simp [hd]
    have hpages := chunkPages_ne_nil st.page_size _ hps hbne
    have hlen0 : data.length ≠ 0 := fun h => hd (List.eq_nil_of_length_eq_zero h)
    simp only [read_blob]
    rw [if_neg (by push_neg; exact ⟨hpages, hlen0⟩)]
    rw [chunkPages_flatten st.page_size hps _ _ le_rfl]
    have htake : (data ++ List.replicate
        ((data.length + st.page_size - 1) / st.page_size * st.page_size - data.length) 0).take
          data.length = data := by
      rw [List.take_append_of_le_length le_rfl, List.take_length]
    exact htake

/-- Witness for C3 at a concrete pager state and payload. -/
theorem claim_C3_witness :
    0 < (⟨4, [], 0⟩ : PagerState).page_size ∧
      read_blob (write_blob ⟨4, [], 0⟩ [10, 20, 30, 40, 50]) = [10, 20, 30, 40, 50] :=
  ⟨by decide, claim_C3 ⟨4, [], 0⟩ [10, 20, 30, 40, 50] (by decide)⟩

/-- C9: after every sequence of table-manager operations applied to a fresh
database, every existing hash index on a table equals the grouping of that
table's current row sequence by the indexed column's value (it is always
re-derivable from the current rows). -/
theorem claim_C9 (ops : List Op) (n : String) (tbl : Table) (c : String) (idx : Index)
    (h1 : (n, tbl) ∈ applyOps ops) (h2 : (c, idx) ∈ tbl.indexes) :
    idx = buildIndex tbl.rows c :=
  (storInv_applyOps ops n tbl h1).2 c idx h2

/-- Witness for C9 on a concrete operation sequence. -/
theorem claim_C9_witness :
    (("t", (⟨["a", "b"],
        [[("a", vInt 1)], [("a", vInt 2), ("b", vStr "x")], [("a", vInt 1), ("b", vStr "y")]],
        [("a", [(vInt 1, [0, 2]), (vInt 2, [1])])]⟩ : Table)) ∈
      applyOps [Op.createTable "t" ["a", "b"], Op.createIndex "t" "a",
        Op.insertRow "t" [vInt 1], Op.insertRow "t" [vInt 2, vStr "x"],
        Op.insertRow "t" [vInt 1, vStr "y"]]) ∧
    [(vInt 1, [0, 2]), (vInt 2, [1])] =
      buildIndex [[("a", vInt 1)], [("a", vInt 2), ("b", vStr "x")],
        [("a", vInt 1), ("b", vStr "y")]] "a" := by
  refine ⟨by decide, ?_⟩
  exact claim_C9 [Op.createTable "t" ["a", "b"], Op.createIndex "t" "a",
      Op.insertRow "t" [vInt 1], Op.insertRow "t" [vInt 2, vStr "x"],
      Op.insertRow "t" [vInt 1, vStr "y"]] "t"
    ⟨["a", "b"],
      [[("a", vInt 1)], [("a", vInt 2), ("b", vStr "x")], [("a", vInt 1), ("b", vStr "y")]],
      [("a", [(vInt 1, [0, 2]), (vInt 2, [1])])]⟩ "a"
    [(vInt 1, [0, 2]), (vInt 2, [1])] (by decide) (by decide)

/-- C5: on any reachable database state, a SELECT with `WHERE c = v`
returns the same rows whether or not a hash index exists on `c`
(`create_index` does not change the SELECT result), and the WHERE-aware
row iterator agrees with the linear scan. -/
theorem claim_C5 (ops : List Op) (n : String) (tbl : Table) (c : String) (v : Value)
    (s2 : Storage) (hlk : alookup (applyOps ops) n = some tbl)
    (hci : create_index (applyOps ops) n c = .ok s2) :
    select_rows s2 n ["*"] (some (c, v)) none =
      select_rows (applyOps ops) n ["*"] (some (c, v)) none ∧
    rowsForList tbl (some (c, v)) = tbl.rows.filter (fun r => pyEqB (rowGetD r c) v) := by
  have hinv := storInv_applyOps ops
  have htbl := hinv n tbl (alookup_mem hlk)
  have hinv2 := storInv_create_index hinv n c hci
  constructor
  · unfold create_index at hci
    rw [hlk] at hci
    have hci2 : (if (alookup tbl.indexes c).isSome = true then Except.ok (applyOps ops)
        else Except.ok (aset (applyOps ops) n
          { columns := tbl.columns, rows := tbl.rows,
            indexes := aset tbl.indexes c (buildIndex tbl.rows c) })) =
        Except.ok s2 := hci
    clear hci
    by_cases hex : (alookup tbl.indexes c).isSome
    · rw [if_pos hex] at hci2
      cases hci2
      rfl
    · rw [if_neg hex] at hci2
      cases hci2
      have hlk2 : alookup
          (aset (applyOps ops) n
            { tbl with indexes := aset tbl.indexes c (buildIndex tbl.rows c) }) n =
          some { tbl with indexes := aset tbl.indexes c (buildIndex tbl.rows c) } := by
        rw [alookup_aset]
        simp
      have htbl2 := hinv2 _ _ (alookup_mem hlk2)
      simp only [select_rows, hlk, hlk2]
      simp only [selectT, if_pos rfl]
      rw [rowsForList_eq_filter htbl2 c v, rowsForList_eq_filter htbl c v]
  · exact rowsForList_eq_filter htbl c v

/-- Witness for C5 on a concrete reachable state. -/
theorem claim_C5_witness :
    alookup (applyOps [Op.createTable "t" ["a"], Op.insertRow "t" [vInt 1],
        Op.insertRow "t" [vInt 2]]) "t" =
      some (⟨["a"], [[("a", vInt 1)], [("a", vInt 2)]], []⟩ : Table) ∧
    create_index (applyOps [Op.createTable "t" ["a"], Op.insertRow "t" [vInt 1],
        Op.insertRow "t" [vInt 2]]) "t" "a" =
      .ok [("t", ⟨["a"], [[("a", vInt 1)], [("a", vInt 2)]],
        [("a", [(vInt 1, [0]), (vInt 2, [1])])]⟩)] ∧
    select_rows [("t", ⟨["a"], [[("a", vInt 1)], [("a", vInt 2)]],
        [("a", [(vInt 1, [0]), (vInt 2, [1])])]⟩)] "t" ["*"] (some ("a", vInt 1)) none =
      select_rows (applyOps [Op.createTable "t" ["a"], Op.insertRow "t" [vInt 1],
        Op.insertRow "t" [vInt 2]]) "t" ["*"] (some ("a", vInt 1)) none := by
  refine ⟨by decide, by rfl, ?_⟩
  exact (claim_C5 [Op.createTable "t" ["a"], Op.insertRow "t" [vInt 1],
      Op.insertRow "t" [vInt 2]] "t"
    ⟨["a"], [[("a", vInt 1)], [("a", vInt 2)]], []⟩ "a" (vInt 1)
    [("t", ⟨["a"], [[("a", vInt 1)], [("a", vInt 2)]],
      [("a", [(vInt 1, [0]), (vInt 2, [1])])]⟩)] (by decide) (by rfl)).1

theorem rowsAt_bucketGet_buildIndex (rows : List Row) (c : String) (v : Value) :
    rowsAt rows (bucketGet (buildIndex rows c) v) =
      rows.filter (fun r => pyEqB (rowGetD r c) v) := by
  rw [bucketGet_buildIndex]
  exact rowsAt_enumFilter (fun r => pyEqB (rowGetD r c) v) rows 0 rows (fun j => by simp)

theorem flatMap_eq_nil_of_forall {α β : Type} (l : List α) (f : α → List β)
    (h : ∀ x ∈ l, f x = []) : l.flatMap f = [] := by
  induction l with
  | nil => rfl
  | cons a t ih =>
    simp only [List.flatMap_cons, h a (by simp), List.nil_append]
    exact ih (fun x hx => h x (by simp [hx]))

theorem flatMap_congr_fun {α β : Type} (l : List α) (f g : α → List β)
    (h : ∀ x, f x = g x) : l.flatMap f = l.flatMap g := by
  induction l with
  | nil => rfl
  | cons a t ih => simp only [List.flatMap_cons, h a, ih]

/-- C6: on any reachable database state, `SELECT * FROM a INNER JOIN b ON
a.k = b.k` emits exactly one combined row per (left row, right row) pair
whose join-column values are equal, and zero rows when no keys match. -/
theorem claim_C6 (ops : List Op) (a : String) (j : JoinSpec) (tblA tblB : Table)
    (hA : alookup (applyOps ops) a = some tblA)
    (hB : alookup (applyOps ops) j.table = some tblB) :
    joinRowsT (applyOps ops) a ["*"] none j =
      .ok (tblA.rows.flatMap (fun l =>
        (tblB.rows.filter (fun r => pyEqB (rowGetD r j.rc) (rowGetD l j.lc))).map
          (fun r => joinEmit j tblA.columns tblB.columns ["*"] l r))) ∧
    ((∀ l ∈ tblA.rows, ∀ r ∈ tblB.rows, ¬ pyEqB (rowGetD l j.lc) (rowGetD r j.rc) = true) →
      joinRowsT (applyOps ops) a ["*"] none j = .ok []) := by
  have hinv := storInv_applyOps ops
  have htblB := hinv j.table tblB (alookup_mem hB)
  have hmain : joinRowsT (applyOps ops) a ["*"] none j =
      .ok (tblA.rows.flatMap (fun l =>
        (tblB.rows.filter (fun r => pyEqB (rowGetD r j.rc) (rowGetD l j.lc))).map
          (fun r => joinEmit j tblA.columns tblB.columns ["*"] l r))) := by
    have hridx : (match alookup tblB.indexes j.rc with
        | some idx => idx
        | none => buildIndex tblB.rows j.rc) = buildIndex tblB.rows j.rc := by
      cases hIdx : alookup tblB.indexes j.rc with
      | none => rfl
      | some idx => exact (htblB.2 j.rc idx (alookup_mem hIdx)).symm ▸ rfl
    simp only [joinRowsT, hA, hB, rowsForList_none, hridx]
    exact congrArg Except.ok (flatMap_congr_fun _ _ _
      (fun l => by rw [rowsAt_bucketGet_buildIndex]))
  refine ⟨hmain, fun hnone => ?_⟩
  rw [hmain]
  congr 1
  refine flatMap_eq_nil_of_forall _ _ (fun l hl => ?_)
  have hfil : tblB.rows.filter (fun r => pyEqB (rowGetD r j.rc) (rowGetD l j.lc)) = [] := by
    rw [List.filter_eq_nil_iff]
    intro r hr hc
    exact hnone l hl r hr (pyEqB_symm hc)
  rw [hfil]
  rfl

/-- Witness for C6 on a concrete reachable state with two tables. -/
theorem claim_C6_witness :
    alookup (applyOps [Op.createTable "a" ["k"], Op.insertRow "a" [vInt 1],
        Op.insertRow "a" [vInt 2], Op.createTable "b" ["k", "y"],
        Op.insertRow "b" [vInt 1, vStr "r"], Op.insertRow "b" [vInt 1, vStr "s"]]) "a" =
      some (⟨["k"], [[("k", vInt 1)], [("k", vInt 2)]], []⟩ : Table) ∧
    alookup (applyOps [Op.createTable "a" ["k"], Op.insertRow "a" [vInt 1],
        Op.insertRow "a" [vInt 2], Op.createTable "b" ["k", "y"],
        Op.insertRow "b" [vInt 1, vStr "r"], Op.insertRow "b" [vInt 1, vStr "s"]]) "b" =
      some (⟨["k", "y"], [[("k", vInt 1), ("y", vStr "r")], [("k", vInt 1), ("y", vStr "s")]],
        []⟩ : Table) ∧
    joinRowsT (applyOps [Op.createTable "a" ["k"], Op.insertRow "a" [vInt 1],
        Op.insertRow "a" [vInt 2], Op.createTable "b" ["k", "y"],
        Op.insertRow "b" [vInt 1, vStr "r"], Op.insertRow "b" [vInt 1, vStr "s"]]) "a"
        ["*"] none ⟨"b", "a", "k", "b", "k"⟩ =
      .ok ((⟨["k"], [[("k", vInt 1)], [("k", vInt 2)]], []⟩ : Table).rows.flatMap (fun l =>
        ((⟨["k", "y"], [[("k", vInt 1), ("y", vStr "r")], [("k", vInt 1), ("y", vStr "s")]],
            []⟩ : Table).rows.filter
          (fun r => pyEqB (rowGetD r "k") (rowGetD l "k"))).map
          (fun r => joinEmit ⟨"b", "a", "k", "b", "k"⟩ ["k"] ["k", "y"] ["*"] l r))) := by
  refine ⟨by decide, by decide, ?_⟩
  exact (claim_C6 [Op.createTable "a" ["k"], Op.insertRow "a" [vInt 1],
      Op.insertRow "a" [vInt 2], Op.createTable "b" ["k", "y"],
      Op.insertRow "b" [vInt 1, vStr "r"], Op.insertRow "b" [vInt 1, vStr "s"]]
    "a" ⟨"b", "a", "k", "b", "k"⟩
    ⟨["k"], [[("k", vInt 1)], [("k", vInt 2)]], []⟩
    ⟨["k", "y"], [[("k", vInt 1), ("y", vStr "r")], [("k", vInt 1), ("y", vStr "s")]], []⟩
    (by decide) (by decide)).1

/-- C10: in SELECT rendering, a requested column absent from a row's key
mapping renders as an empty cell; a non-join SELECT with an explicit
column list gives every requested column a key (so a column the row lacks
renders as the text `None`); a wildcard SELECT returns the raw rows, so
columns missing from a row render as empty cells. -/
theorem claim_C10 :
    (∀ (r : Row) (c : String), alookup r c = none → cellStr r c = "") ∧
    (∀ (cols : List String) (r : Row) (c : String), c ∈ cols →
      alookup (projectRow cols r) c = some (rowGetD r (unqualSuffix c))) ∧
    (∀ (cols : List String) (r : Row) (c : String), c ∈ cols →
      alookup r (unqualSuffix c) = none → cellStr (projectRow cols r) c = "None") ∧
    (∀ (tbl : Table) (w : Option (String × Value)), selectT tbl ["*"] w = rowsForList tbl w) := by
  refine ⟨?_, ?_, ?_, ?_⟩
  · intro r c h
    simp [cellStr, h]
  · intro cols r c hc
    rw [alookup_projectRow, if_pos hc]
  · intro cols r c hc habs
    have h2 : alookup (projectRow cols r) c = some (rowGetD r (unqualSuffix c)) := by
      rw [alookup_projectRow, if_pos hc]
    simp [cellStr, h2, rowGetD, habs, pyStr]
  · intro tbl w
    simp [selectT]

/-- Witness for C10 at concrete rows and column lists. -/
theorem claim_C10_witness :
    cellStr [("a", vInt 1)] "b" = "" ∧
    alookup (projectRow ["b"] [("a", vInt 1)]) "b" = some (rowGetD [("a", vInt 1)] (unqualSuffix "b")) ∧
    cellStr (projectRow ["b"] [("a", vInt 1)]) "b" = "None" ∧
    selectT ⟨["a"], [[("a", vInt 5)]], []⟩ ["*"] none = rowsForList ⟨["a"], [[("a", vInt 5)]], []⟩ none :=
  ⟨claim_C10.1 [("a", vInt 1)] "b" (by decide),
   claim_C10.2.1 ["b"] [("a", vInt 1)] "b" (by decide),
   claim_C10.2.2.1 ["b"] [("a", vInt 1)] "b" (by decide) (by decide),
   claim_C10.2.2.2 ⟨["a"], [[("a", vInt 5)]], []⟩ none⟩

/-- C8: executing USE on a database name absent from the database map
returns the single line `Database '<name>' not found.` and leaves the
whole executor state (active database, database set, storage, log)
unchanged. -/
theorem claim_C8 (s : ExecState) (d : Details) (name raw : String) (toks : List String)
    (hn : detGetStr d "name" = some name)
    (habs : alookup s.databases name = none) :
    execute s ⟨"USE_DATABASE", raw, toks, d⟩ =
      .ok (s, ["Database '" ++ name ++ "' not found."]) := by
  have h1 : execute s ⟨"USE_DATABASE", raw, toks, d⟩ =
      (match detGetStr d "name" with
       | none => .error .keyError
       | some n =>
         if (alookup s.databases n).isNone then
           .ok (s, ["Database '" ++ n ++ "' not found."])
         else .ok ({ s with active := n }, ["Using database '" ++ n ++ "'."])) := rfl
  rw [h1, hn]
  simp [habs]

/-- Witness for C8 on the startup state. -/
theorem claim_C8_witness :
    execute freshExec ⟨"USE_DATABASE", "USE reports", ["USE", "reports"],
        [("name", DVal.s "reports")]⟩ =
      .ok (freshExec, ["Database 'reports' not found."]) :=
  claim_C8 freshExec [("name", DVal.s "reports")] "reports" "USE reports"
    ["USE", "reports"] (by decide) (by decide)

/-- C1 counterexample: `parse` is not exception-free; on the input `";"`
(non-blank, but only a statement terminator) the Python code evaluates
`tokens[0]` of an empty token list and raises `IndexError`. -/
theorem claim_C1_cex : parse ";" = .error .indexError := by rfl

/-- C1 (amended): blank input yields a command of kind EMPTY, and input
whose leading keyword is not one of the recognized statement keywords
yields a command of kind UNKNOWN carrying no payload; but `parse` is not
total — inputs such as `";"`, or malformed statements of recognized kinds,
raise exceptions. -/
theorem claim_C1 :
    (∀ q : String, pyStrip q = "" → parse q = .ok ⟨"EMPTY", "", [], []⟩) ∧
    (∀ (q t0 : String) (rest : List String), pyStrip q ≠ "" →
      pyWords (pyRstripSemis (pyStrip q)) = t0 :: rest →
      pyUpper t0 ∉ (["COMMIT", "USE", "INSERT", "UPDATE", "DELETE", "SELECT",
        "CREATE", "ALTER", "DROP"] : List String) →
      parse q = .ok ⟨"UNKNOWN", pyStrip q, t0 :: rest, []⟩) := by
  constructor
  · intro q h
    simp [parse, h]
  · intro q t0 rest hq htoks hmem
    simp only [List.mem_cons, List.not_mem_nil, or_false, not_or] at hmem
    obtain ⟨h1, h2, h3, h4, h5, h6, h7, h8, h9⟩ := hmem
    simp only [parse]
    rw [if_neg hq, htoks]
    simp only [h1, h2, h3, h4, h5, h6, if_false]
    cases rest with
    | nil => rfl
    | cons t1 more => simp [h7, h8, h9]

/-- Witness for C1 at a blank and an unrecognized input. -/
theorem claim_C1_witness :
    parse "" = .ok ⟨"EMPTY", "", [], []⟩ ∧
    parse "HELLO world" = .ok ⟨"UNKNOWN", "HELLO world", ["HELLO", "world"], []⟩ :=
  ⟨claim_C1.1 "" rfl,
   claim_C1.2 "HELLO world" "HELLO" ["world"] (by decide) (by decide) (by decide)⟩

/-- C2 counterexample: a query can raise through the engine: `"UPDATE"`
parses under the UPDATE keyword and `_parse_update` evaluates
`prefix.split()[1]` on a one-token text, raising `IndexError`. -/
theorem claim_C2_cex : engineExecute freshExec "UPDATE" = .error .indexError := by rfl

/-- C2 (amended): the recognized-but-invalid conditions degrade to
descriptive text lines — a command naming a missing table returns
`Table '<t>' not found.` and leaves the state unchanged (and USE of an
unknown database likewise reports not-found) — but malformed statements
can raise an exception through parse/execute rather than returning a
line. -/
theorem claim_C2 (s : ExecState) (pc : ParsedCommand) (stg : Storage) (t : String)
    (hstg : alookup s.databases s.active = some stg)
    (ht : detGetStr pc.details "table" = some t)
    (hne : t ≠ "")
    (habs : table_exists stg t = false)
    (hcmd : pc.command ∈ (["ALTER_TABLE", "DROP_TABLE", "CREATE_INDEX", "DROP_INDEX",
      "INSERT", "UPDATE", "DELETE", "SELECT"] : List String)) :
    execute s pc = .ok (s, ["Table '" ++ t ++ "' not found."]) := by
  obtain ⟨cmd, raw, toks, d⟩ := pc
  simp only at ht hcmd
  have hrun : ∀ hc : cmd ∈ (["ALTER_TABLE", "DROP_TABLE", "CREATE_INDEX", "DROP_INDEX",
      "INSERT", "UPDATE", "DELETE", "SELECT"] : List String),
      execute s ⟨cmd, raw, toks, d⟩ = .ok (s, ["Table '" ++ t ++ "' not found."]) := by
    intro hc
    fin_cases hc <;>
    · simp only [execute, hstg, ht]
      rw [if_neg (by decide), if_neg (by decide), if_neg (by decide), if_neg (by decide),
        if_neg (by decide)]
      exact if_pos ⟨hne, habs⟩
  exact hrun hcmd

/-- Witness for C2 (amended) at a concrete state and command. -/
theorem claim_C2_witness :
    execute freshExec ⟨"DELETE", "DELETE FROM ghosts", ["DELETE", "FROM", "ghosts"],
        [("table", DVal.s "ghosts"), ("where", DVal.whereD none)]⟩ =
      .ok (freshExec, ["Table 'ghosts' not found."]) :=
  claim_C2 freshExec ⟨"DELETE", "DELETE FROM ghosts", ["DELETE", "FROM", "ghosts"],
      [("table", DVal.s "ghosts"), ("where", DVal.whereD none)]⟩ [] "ghosts"
    (by decide) (by decide) (by decide) (by decide) (by decide)

/-! ### Commit draining (C7) -/

/-- Executing one successfully applied mutation appends exactly one entry
at the end of the commit log and keeps the active database valid. -/
theorem execute_mutation {s : ExecState} {pc : ParsedCommand} (h : mutOkB s pc = true) :
    ∃ s' out e, execute s pc = .ok (s', out) ∧ s'.lsm = s.lsm ++ [e] ∧
      s'.active = s.active ∧ (alookup s'.databases s'.active).isSome := by
  obtain ⟨cmd, raw, toks, d⟩ := pc
  unfold mutOkB at h
  simp only at h
  cases hstg : alookup s.databases s.active with
  | none => rw [hstg] at h; cases h
  | some stg =>
    cases ht : detGetStr d "table" with
    | none =>
      simp only [hstg, ht] at h
      exact (Bool.false_ne_true h).elim
    | some t =>
      simp only [hstg, ht, Bool.and_eq_true, decide_eq_true_eq] at h
      obtain ⟨⟨hne, hex⟩, hpay⟩ := h
      obtain ⟨tbl, htbl⟩ := Option.isSome_iff_exists.mp hex
      have hnf : ¬ (t ≠ "" ∧ table_exists stg t = false) := by
        rintro ⟨_, hf⟩
        rw [hex] at hf
        cases hf
      by_cases hI : cmd = "INSERT"
      · rw [if_pos hI] at hpay
        obtain ⟨vs, hvs⟩ := Option.isSome_iff_exists.mp hpay
        subst hI
        have h2 : execTail s stg "INSERT" d raw (some t) =
            (match insert_row stg t vs with
             | .error e => Except.error e
             | .ok (stg', row) =>
               Except.ok ({ setActiveStorage s stg' with
                 lsm := lsmLog s.lsm (LogEntry.insertE s.active row) },
                 ["1 row inserted."])) := by
          have h2a : execTail s stg "INSERT" d raw (some t) =
              (match detGetVals d "values" with
               | none => Except.error PErr.keyError
               | some vs0 =>
                 match insert_row stg t vs0 with
                 | .error e => Except.error e
                 | .ok (stg', row) =>
                   Except.ok ({ setActiveStorage s stg' with
                     lsm := lsmLog s.lsm (LogEntry.insertE s.active row) },
                     ["1 row inserted."])) := rfl
          rw [h2a, hvs]
        obtain ⟨pr, hins⟩ : ∃ pr, insert_row stg t vs = .ok pr := by
          simp only [insert_row, htbl]
          exact ⟨_, rfl⟩
        obtain ⟨stg', row⟩ := pr
        have hfull : execute s ⟨"INSERT", raw, toks, d⟩ =
            Except.ok ({ setActiveStorage s stg' with
              lsm := lsmLog s.lsm (LogEntry.insertE s.active row) }, ["1 row inserted."]) := by
          simp only [execute, hstg, ht]
          rw [if_neg (by decide), if_neg (by decide), if_neg (by decide), if_neg (by decide),
            if_neg (by decide), if_neg hnf, h2, hins]
        exact ⟨_, _, _, hfull, rfl, rfl, by simp [setActiveStorage, alookup_aset]⟩
      · by_cases hU : cmd = "UPDATE"
        · rw [if_neg hI, if_pos hU] at hpay
          obtain ⟨asg, hasg⟩ := Option.isSome_iff_exists.mp hpay
          subst hU
          have h2 : execTail s stg "UPDATE" d raw (some t) =
              (match update_rows stg t asg (detGetWhere d "where") with
               | .error e => Except.error e
               | .ok (stg', count) =>
                 Except.ok ({ setActiveStorage s stg' with
                   lsm := lsmLog s.lsm (LogEntry.updateE s.active count) },
                   [toString count ++ " row(s) updated."])) := by
            have h2a : execTail s stg "UPDATE" d raw (some t) =
                (match detGetAssigns d "assignments" with
                 | none => Except.error PErr.keyError
                 | some asg0 =>
                   match update_rows stg t asg0 (detGetWhere d "where") with
                   | .error e => Except.error e
                   | .ok (stg', count) =>
                     Except.ok ({ setActiveStorage s stg' with
                       lsm := lsmLog s.lsm (LogEntry.updateE s.active count) },
                       [toString count ++ " row(s) updated."])) := rfl
            rw [h2a, hasg]
          obtain ⟨pr, hupd⟩ : ∃ pr, update_rows stg t asg (detGetWhere d "where") = .ok pr := by
            simp only [update_rows, htbl]
            exact ⟨_, rfl⟩
          obtain ⟨stg', count⟩ := pr
          have hfull : execute s ⟨"UPDATE", raw, toks, d⟩ =
              Except.ok ({ setActiveStorage s stg' with
                lsm := lsmLog s.lsm (LogEntry.updateE s.active count) },
                [toString count ++ " row(s) updated."]) := by
            simp only [execute, hstg, ht]
            rw [if_neg (by decide), if_neg (by decide), if_neg (by decide), if_neg (by decide),
              if_neg (by decide), if_neg hnf, h2, hupd]
          exact ⟨_, _, _, hfull, rfl, rfl, by simp [setActiveStorage, alookup_aset]⟩
        · rw [if_neg hI, if_neg hU, decide_eq_true_eq] at hpay
          subst hpay
          have h2 : execTail s stg "DELETE" d raw (some t) =
              (match delete_rows stg t (detGetWhere d "where") with
               | .error e => Except.error e
               | .ok (stg', count) =>
                 Except.ok ({ setActiveStorage s stg' with
                   lsm := lsmLog s.lsm (LogEntry.deleteE s.active count) },
                   [toString count ++ " row(s) deleted."])) := rfl
          obtain ⟨pr, hdel⟩ : ∃ pr, delete_rows stg t (detGetWhere d "where") = .ok pr := by
            simp only [delete_rows, htbl]
            exact ⟨_, rfl⟩
          obtain ⟨stg', count⟩ := pr
          have hfull : execute s ⟨"DELETE", raw, toks, d⟩ =
              Except.ok ({ setActiveStorage s stg' with
                lsm := lsmLog s.lsm (LogEntry.deleteE s.active count) },
                [toString count ++ " row(s) deleted."]) := by
            simp only [execute, hstg, ht]
            rw [if_neg (by decide), if_neg (by decide), if_neg (by decide), if_neg (by decide),
              if_neg (by decide), if_neg hnf, h2, hdel]
          exact ⟨_, _, _, hfull, rfl, rfl, by simp [setActiveStorage, alookup_aset]⟩

/-- COMMIT flushes the log: the report counts all pending entries and the
remaining log is empty. -/
theorem execute_commit (s : ExecState) (h : (alookup s.databases s.active).isSome) :
    execute s ⟨"COMMIT", "COMMIT", ["COMMIT"], []⟩ =
      .ok ({ s with lsm := [] }, [commitMsg s.lsm.length]) := by
  obtain ⟨stg, hstg⟩ := Option.isSome_iff_exists.mp h
  have h1 : execute s ⟨"COMMIT", "COMMIT", ["COMMIT"], []⟩ =
      (match alookup s.databases s.active with
       | none => Except.error PErr.keyError
       | some _ => Except.ok ({ s with lsm := [] }, [commitMsg s.lsm.length])) := rfl
  rw [h1, hstg]

/-- Executing a run of successfully applied mutations grows the log by
exactly one entry per statement, in order. -/
theorem execSeq_mutations (cs : List ParsedCommand) :
    ∀ s : ExecState, mutSeqOk s cs → (alookup s.databases s.active).isSome →
      ∃ s' outs, execSeq s cs = .ok (s', outs) ∧
        s'.lsm.length = s.lsm.length + cs.length ∧
        (alookup s'.databases s'.active).isSome := by
  induction cs with
  | nil =>
    intro s _ hact
    exact ⟨s, [], rfl, by simp, hact⟩
  | cons pc rest ih =>
    intro s hm hact
    obtain ⟨hok, hrest0⟩ := hm
    obtain ⟨s1, out, e, hexec, hlsm, _, hact1⟩ := execute_mutation hok
    have hrest : mutSeqOk s1 rest := by
      rw [hexec] at hrest0
      exact hrest0
    obtain ⟨s2, outs, hseq, hlen, hact2⟩ := ih s1 hrest hact1
    refine ⟨s2, out :: outs, ?_, ?_, hact2⟩
    · simp only [execSeq, hexec, hseq]
    · rw [hlen, hlsm]
      simp
      omega

/-- C7: after any number of successfully applied mutating statements
following a commit (empty log), the flushed entries of `commit` are the
staged entries in append order, the remaining log is empty, and the
executor's COMMIT report counts exactly one entry per mutating statement. -/
theorem claim_C7 (s : ExecState) (cs : List ParsedCommand)
    (hempty : s.lsm = []) (hmut : mutSeqOk s cs)
    (hact : (alookup s.databases s.active).isSome) :
    ∃ s' outs, execSeq s cs = .ok (s', outs) ∧
      s'.lsm.length = cs.length ∧
      (lsmCommit s'.lsm).1 = s'.lsm ∧ (lsmCommit s'.lsm).2 = [] ∧
      execute s' ⟨"COMMIT", "COMMIT", ["COMMIT"], []⟩ =
        .ok ({ s' with lsm := [] }, [commitMsg cs.length]) := by
  obtain ⟨s', outs, hseq, hlen, hact'⟩ := execSeq_mutations cs s hmut hact
  rw [hempty] at hlen
  simp only [List.length_nil, Nat.zero_add] at hlen
  refine ⟨s', outs, hseq, hlen, rfl, rfl, ?_⟩
  rw [execute_commit s' hact', hlen]

/-- Witness for C7: one INSERT then COMMIT on a concrete state. -/
theorem claim_C7_witness :
    ∃ s' outs,
      execSeq ⟨[("default", [("users", ⟨["id"], [], []⟩)])], "default", []⟩
        [⟨"INSERT", "INSERT INTO users VALUES (1)", ["INSERT", "INTO", "users", "VALUES", "(1)"],
          [("table", DVal.s "users"), ("values", DVal.valsD [vInt 1])]⟩] = .ok (s', outs) ∧
      s'.lsm.length = 1 ∧
      (lsmCommit s'.lsm).1 = s'.lsm ∧ (lsmCommit s'.lsm).2 = [] ∧
      execute s' ⟨"COMMIT", "COMMIT", ["COMMIT"], []⟩ =
        .ok ({ s' with lsm := [] }, [commitMsg 1]) := by
  exact claim_C7 ⟨[("default", [("users", ⟨["id"], [], []⟩)])], "default", []⟩
    [⟨"INSERT", "INSERT INTO users VALUES (1)", ["INSERT", "INTO", "users", "VALUES", "(1)"],
      [("table", DVal.s "users"), ("values", DVal.valsD [vInt 1])]⟩]
    rfl ⟨by decide, trivial⟩ (by decide)
